import Mathlib

/-
Verification development for a Rust chess engine.

The definitions below are a shallow embedding of the engine's core:
the file `src/chess/src/main.rs` (board state, move generation, the
simulate-and-check legality filter, the mutator `make_move` /
`make_move_unchecked`, check/mate/stalemate queries) and the FEN
serializer from `src/src/fen_converter.rs`.

Modelling conventions:
- `usize`/`i32` arithmetic becomes `Nat`/`Int` (the Rust code always
  bounds-checks before converting back to `usize`, which we mirror).
- Code paths that can panic in Rust (`Option::unwrap` on an empty
  square, `find_king`'s explicit panic) are modelled by returning
  `none`: a `none` result of `make_move_unchecked`, `get_legal_moves`,
  `is_in_check`, `make_move` etc. means the Rust code panics there.
- The Rust names are kept (snake_case), except that
  `Position::to_notation` / `Position::from_notation` are modelled as
  `Position.toAlgebraic` / `Position.fromAlgebraic`.
-/

set_option maxRecDepth 8000

namespace Chess

inductive Color where
  | White
  | Black
deriving DecidableEq, Repr

/-- `Color::opposite`. -/
def Color.opposite : Color → Color
  | .White => .Black
  | .Black => .White

/-- The `Piece` enum: King/Rook/Pawn carry an extra `bool` flag exactly as in
the Rust source. -/
inductive Piece where
  | King (c : Color) (b : Bool)
  | Queen (c : Color)
  | Rook (c : Color) (b : Bool)
  | Bishop (c : Color)
  | Knight (c : Color)
  | Pawn (c : Color) (b : Bool)
deriving DecidableEq, Repr

/-- `Piece::color`. -/
def Piece.color : Piece → Color
  | .King c _ => c
  | .Queen c => c
  | .Rook c _ => c
  | .Bishop c => c
  | .Knight c => c
  | .Pawn c _ => c

structure Position where
  row : Nat
  col : Nat
deriving DecidableEq, Repr

structure Move where
  fromPos : Position
  toPos : Position
  promotion : Option Piece
deriving DecidableEq, Repr

structure CastlingRights where
  white_kingside : Bool
  white_queenside : Bool
  black_kingside : Bool
  black_queenside : Bool
deriving DecidableEq, Repr

/-- `CastlingRights::new`: all four rights start `true`. -/
def CastlingRights.new : CastlingRights :=
  { white_kingside := true, white_queenside := true
    black_kingside := true, black_queenside := true }

/-- The 8x8 grid `[[Square; 8]; 8]`, row-major, as a list of rows. -/
abbrev Board := List (List (Option Piece))

structure Chessboard where
  board : Board
  current_turn : Color
  castling_rights : CastlingRights
  en_passant_target : Option Position
  move_history : List String
deriving DecidableEq, Repr

/-- Read `board[r][c]` (all Rust reads are guarded by `0..8` bounds checks). -/
def getCell (b : Board) (r c : Nat) : Option Piece :=
  (b.getD r []).getD c none

/-- Write `board[r][c] = v`. -/
def setCell (b : Board) (r c : Nat) (v : Option Piece) : Board :=
  b.set r ((b.getD r []).set c v)

/-- `Position::new`: only in-range coordinates yield a value. -/
def Position.new (row col : Nat) : Option Position :=
  if row < 8 ∧ col < 8 then some ⟨row, col⟩ else none

/-- `Position::to_notation`: file letter then rank digit. -/
def Position.toAlgebraic (p : Position) : String :=
  String.singleton (Char.ofNat (97 + p.col)) ++ Nat.repr (8 - p.row)

/-- `Position::from_notation`: exactly two characters, file `a`..`h`,
rank `1`..`8`; anything else yields no value. -/
def Position.fromAlgebraic (s : String) : Option Position :=
  match s.data with
  | [cchar, rchar] =>
    if 'a' ≤ cchar ∧ cchar ≤ 'h' then
      if '1' ≤ rchar ∧ rchar ≤ '8' then
        some ⟨8 - (rchar.toNat - '1'.toNat) - 1, cchar.toNat - 'a'.toNat⟩
      else none
    else none
  | _ => none

/-- `Move::to_notation`. -/
def Move.toAlgebraic (mv : Move) : String :=
  mv.fromPos.toAlgebraic ++ " " ++ mv.toPos.toAlgebraic

def backRow (c : Color) : List (Option Piece) :=
  [some (.Rook c false), some (.Knight c), some (.Bishop c), some (.Queen c),
   some (.King c false), some (.Bishop c), some (.Knight c), some (.Rook c false)]

def pawnRow (c : Color) : List (Option Piece) :=
  List.replicate 8 (some (.Pawn c false))

def emptyRow : List (Option Piece) :=
  List.replicate 8 none

/-- `Chessboard::new`: the standard initial position, White to move,
all castling rights, no en-passant target, empty history. -/
def Chessboard.new : Chessboard where
  board := [backRow .Black, pawnRow .Black, emptyRow, emptyRow,
            emptyRow, emptyRow, pawnRow .White, backRow .White]
  current_turn := .White
  castling_rights := CastlingRights.new
  en_passant_target := none
  move_history := []

/-- `Chessboard::can_move_to`. -/
def Chessboard.can_move_to (st : Chessboard) (p : Position) (c : Color) : Bool :=
  match getCell st.board p.row p.col with
  | some piece => decide (piece.color ≠ c)
  | none => true

/-- `Chessboard::can_capture`. -/
def Chessboard.can_capture (st : Chessboard) (p : Position) (c : Color) : Bool :=
  match getCell st.board p.row p.col with
  | some piece => decide (piece.color ≠ c)
  | none => false

def knightOffsets : List (Int × Int) :=
  [(-2,-1),(-2,1),(-1,-2),(-1,2),(1,-2),(1,2),(2,-1),(2,1)]

def kingOffsets : List (Int × Int) :=
  [(-1,-1),(-1,0),(-1,1),(0,-1),(0,1),(1,-1),(1,0),(1,1)]

def slidingDirections : List (Int × Int) :=
  [(-1,-1),(-1,1),(1,-1),(1,1),(-1,0),(1,0),(0,-1),(0,1)]

/-- Shared shape of `knight_moves` and the fixed-offset part of `king_moves`:
for each offset, accept the destination when in range and `can_move_to`. -/
def Chessboard.offset_moves (st : Chessboard) (frm : Position) (c : Color)
    (offs : List (Int × Int)) : List Move :=
  offs.filterMap (fun od =>
    let nr : Int := (frm.row : Int) + od.1
    let nc : Int := (frm.col : Int) + od.2
    if 0 ≤ nr ∧ nr < 8 ∧ 0 ≤ nc ∧ nc < 8 then
      let q : Position := ⟨nr.toNat, nc.toNat⟩
      if st.can_move_to q c then some ⟨frm, q, none⟩ else none
    else none)

/-- `Chessboard::knight_moves`. -/
def Chessboard.knight_moves (st : Chessboard) (frm : Position) (c : Color) : List Move :=
  st.offset_moves frm c knightOffsets

/-- One ray of `sliding_moves`: walk from the given square in direction
`(dr, dc)` until the edge or an occupied square (kept as a capture only
when `can_capture`).  Fuel 8 is enough: a nonzero direction leaves the
board within 8 steps. -/
def Chessboard.slideRay (st : Chessboard) (frm : Position) (c : Color)
    (dr dc : Int) : Nat → Int → Int → List Move
  | 0, _, _ => []
  | fuel+1, r, cc =>
    if 0 ≤ r ∧ r < 8 ∧ 0 ≤ cc ∧ cc < 8 then
      let q : Position := ⟨r.toNat, cc.toNat⟩
      match getCell st.board r.toNat cc.toNat with
      | none => ⟨frm, q, none⟩ :: st.slideRay frm c dr dc fuel (r+dr) (cc+dc)
      | some _ => if st.can_capture q c then [⟨frm, q, none⟩] else []
    else []

/-- `Chessboard::sliding_moves`. -/
def Chessboard.sliding_moves (st : Chessboard) (frm : Position) (c : Color)
    (dirs : List (Int × Int)) : List Move :=
  (dirs.map (fun d =>
    st.slideRay frm c d.1 d.2 8 ((frm.row : Int) + d.1) ((frm.col : Int) + d.2))).flatten

/-- `Chessboard::bishop_moves`. -/
def Chessboard.bishop_moves (st : Chessboard) (frm : Position) (c : Color) : List Move :=
  st.sliding_moves frm c [(-1,-1),(-1,1),(1,-1),(1,1)]

/-- `Chessboard::rook_moves`. -/
def Chessboard.rook_moves (st : Chessboard) (frm : Position) (c : Color) : List Move :=
  st.sliding_moves frm c [(-1,0),(1,0),(0,-1),(0,1)]

/-- `Chessboard::queen_moves`. -/
def Chessboard.queen_moves (st : Chessboard) (frm : Position) (c : Color) : List Move :=
  st.sliding_moves frm c slidingDirections

/-- `Chessboard::add_pawn_move`: expand to the four promotion choices on the
far rank, else a single plain move. -/
def Chessboard.add_pawn_move (_st : Chessboard) (frm : Position)
    (toRow toCol : Nat) (c : Color) : List Move :=
  let promotionRow : Nat := match c with | .White => 0 | .Black => 7
  if toRow = promotionRow then
    [⟨frm, ⟨toRow, toCol⟩, some (.Queen c)⟩,
     ⟨frm, ⟨toRow, toCol⟩, some (.Rook c true)⟩,
     ⟨frm, ⟨toRow, toCol⟩, some (.Bishop c)⟩,
     ⟨frm, ⟨toRow, toCol⟩, some (.Knight c)⟩]
  else [⟨frm, ⟨toRow, toCol⟩, none⟩]

/-- The en-passant candidate of `pawn_moves`: pushed when the en-passant
target aligns diagonally with the pawn and a genuine opposing pawn sits on
the square behind the target (`nr` is the pawn's forward row, `dir` its
forward direction). -/
def Chessboard.ep_candidate (st : Chessboard) (frm : Position) (c : Color)
    (nr : Nat) (dir : Int) : List Move :=
  match st.en_passant_target with
  | some epp =>
    if epp.row = nr ∧ ((epp.col : Int) - (frm.col : Int)).natAbs = 1 then
      let behind : Nat := ((epp.row : Int) - dir).toNat
      match getCell st.board behind epp.col with
      | some (.Pawn oc _) => if oc ≠ c then [⟨frm, epp, none⟩] else []
      | _ => []
    else []
  | none => []

/-- `Chessboard::pawn_moves`: forward push, double push from the home rank,
diagonal captures, en-passant capture; pushes in source order. -/
def Chessboard.pawn_moves (st : Chessboard) (frm : Position) (c : Color) : List Move :=
  let dir : Int := match c with | .White => -1 | .Black => 1
  let nri : Int := (frm.row : Int) + dir
  if nri < 0 ∨ 8 ≤ nri then []
  else
    let nr : Nat := nri.toNat
    let fwd : List Move :=
      if getCell st.board nr frm.col = none then
        st.add_pawn_move frm nr frm.col c ++
        (let startRow : Nat := match c with | .White => 6 | .Black => 1
         if frm.row = startRow then
           let dbl : Nat := ((frm.row : Int) + 2 * dir).toNat
           if getCell st.board dbl frm.col = none then
             [⟨frm, ⟨dbl, frm.col⟩, none⟩]
           else []
         else [])
      else []
    let capL : List Move :=
      if 0 < frm.col then
        if st.can_capture ⟨nr, frm.col - 1⟩ c then
          st.add_pawn_move frm nr (frm.col - 1) c
        else []
      else []
    let capR : List Move :=
      if frm.col < 7 then
        if st.can_capture ⟨nr, frm.col + 1⟩ c then
          st.add_pawn_move frm nr (frm.col + 1) c
        else []
      else []
    fwd ++ capL ++ capR ++ st.ep_candidate frm c nr dir

/-- First occupied square along a ray of `is_square_attacked` (fuel 8 covers
the whole board for a nonzero direction). -/
def rayFirst (b : Board) (dr dc : Int) : Nat → Int → Int → Option Piece
  | 0, _, _ => none
  | fuel+1, r, c =>
    if 0 ≤ r ∧ r < 8 ∧ 0 ≤ c ∧ c < 8 then
      match getCell b r.toNat c.toNat with
      | some p => some p
      | none => rayFirst b dr dc fuel (r + dr) (c + dc)
    else none

/-- Is the cell an attacking knight of the given color? -/
def knightAt (x : Option Piece) (byc : Color) : Bool :=
  match x with
  | some (.Knight kc) => decide (kc = byc)
  | _ => false

/-- Is the cell an attacking pawn of the given color? -/
def pawnAt (x : Option Piece) (byc : Color) : Bool :=
  match x with
  | some (.Pawn pc _) => decide (pc = byc)
  | _ => false

/-- Is the cell an attacking king of the given color? -/
def kingAt (x : Option Piece) (byc : Color) : Bool :=
  match x with
  | some (.King kc _) => decide (kc = byc)
  | _ => false

/-- Does the first piece hit along a ray of direction `d` attack: a queen
always, a rook on orthogonal rays, a bishop on diagonal rays? -/
def slideHit (d : Int × Int) (x : Option Piece) (byc : Color) : Bool :=
  match x with
  | some piece =>
    decide (piece.color = byc) &&
    (match piece with
     | .Queen _ => true
     | .Rook _ _ => decide (d.1 = 0 ∨ d.2 = 0)
     | .Bishop _ => decide (d.1 ≠ 0 ∧ d.2 ≠ 0)
     | _ => false)
  | none => false

/-- `Chessboard::is_square_attacked`: knight, pawn, sliding-piece and
adjacent-king threats from `byc` onto `p`. -/
def Chessboard.is_square_attacked (st : Chessboard) (p : Position) (byc : Color) : Bool :=
  (knightOffsets.any (fun od =>
    let r : Int := (p.row : Int) + od.1
    let c : Int := (p.col : Int) + od.2
    if 0 ≤ r ∧ r < 8 ∧ 0 ≤ c ∧ c < 8 then
      knightAt (getCell st.board r.toNat c.toNat) byc
    else false))
  || (let pdir : Int := match byc with | .White => 1 | .Black => -1
      ([-1, 1] : List Int).any (fun dc =>
        let r : Int := (p.row : Int) + pdir
        let c : Int := (p.col : Int) + dc
        if 0 ≤ r ∧ r < 8 ∧ 0 ≤ c ∧ c < 8 then
          pawnAt (getCell st.board r.toNat c.toNat) byc
        else false))
  || (slidingDirections.any (fun d =>
        slideHit d (rayFirst st.board d.1 d.2 8 ((p.row : Int) + d.1) ((p.col : Int) + d.2))
          byc))
  || (kingOffsets.any (fun od =>
        let r : Int := (p.row : Int) + od.1
        let c : Int := (p.col : Int) + od.2
        if 0 ≤ r ∧ r < 8 ∧ 0 ≤ c ∧ c < 8 then
          kingAt (getCell st.board r.toNat c.toNat) byc
        else false))

/-- All 64 squares in the row-major order of the Rust scan loops. -/
def allPositions : List Position :=
  ((List.range 8).map (fun r => (List.range 8).map (fun c => (⟨r, c⟩ : Position)))).flatten

/-- `Chessboard::find_king`: first King of the color in row-major order;
`none` models the Rust panic when no king exists. -/
def Chessboard.find_king (st : Chessboard) (c : Color) : Option Position :=
  allPositions.find? (fun p => kingAt (getCell st.board p.row p.col) c)

/-- `Chessboard::is_in_check`; `none` models the `find_king` panic. -/
def Chessboard.is_in_check (st : Chessboard) (c : Color) : Option Bool :=
  (st.find_king c).map (fun kp => st.is_square_attacked kp c.opposite)

/-- `Chessboard::castling_moves`: nothing while in check; otherwise the
kingside and queenside candidates under the empty-squares and
not-attacked conditions.  Note the Rust code never checks that a rook is
present on the corner square. -/
def Chessboard.castling_moves (st : Chessboard) (frm : Position) (c : Color) :
    Option (List Move) :=
  (st.is_in_check c).map (fun chk =>
    if chk then []
    else
      let ks : Bool := match c with
        | .White => st.castling_rights.white_kingside
        | .Black => st.castling_rights.black_kingside
      let qs : Bool := match c with
        | .White => st.castling_rights.white_queenside
        | .Black => st.castling_rights.black_queenside
      let back : Nat := match c with | .White => 7 | .Black => 0
      let kmoves : List Move :=
        if ks then
          if getCell st.board back 5 = none ∧ getCell st.board back 6 = none ∧
             st.is_square_attacked ⟨back, 4⟩ c.opposite = false ∧
             st.is_square_attacked ⟨back, 5⟩ c.opposite = false ∧
             st.is_square_attacked ⟨back, 6⟩ c.opposite = false then
            [⟨frm, ⟨back, 6⟩, none⟩]
          else []
        else []
      let qmoves : List Move :=
        if qs then
          if getCell st.board back 1 = none ∧ getCell st.board back 2 = none ∧
             getCell st.board back 3 = none ∧
             st.is_square_attacked ⟨back, 2⟩ c.opposite = false ∧
             st.is_square_attacked ⟨back, 3⟩ c.opposite = false ∧
             st.is_square_attacked ⟨back, 4⟩ c.opposite = false then
            [⟨frm, ⟨back, 2⟩, none⟩]
          else []
        else []
      kmoves ++ qmoves)

/-- `Chessboard::king_moves`: the eight fixed offsets, then castling. -/
def Chessboard.king_moves (st : Chessboard) (frm : Position) (c : Color) :
    Option (List Move) :=
  (st.castling_moves frm c).map (fun cms => st.offset_moves frm c kingOffsets ++ cms)

/-- Castling-rights update of `make_move_unchecked`: a king move clears both
rights of its color; a rook move clears by origin column (0 or 7) only. -/
def rightsAfter (cr : CastlingRights) (piece : Piece) (mv : Move) : CastlingRights :=
  let cr1 : CastlingRights :=
    match piece with
    | .King c _ =>
      match c with
      | .White => { cr with white_kingside := false, white_queenside := false }
      | .Black => { cr with black_kingside := false, black_queenside := false }
    | _ => cr
  match piece with
  | .Rook c _ =>
    match c with
    | .White =>
      if mv.fromPos.col = 0 then { cr1 with white_queenside := false }
      else if mv.fromPos.col = 7 then { cr1 with white_kingside := false }
      else cr1
    | .Black =>
      if mv.fromPos.col = 0 then { cr1 with black_queenside := false }
      else if mv.fromPos.col = 7 then { cr1 with black_kingside := false }
      else cr1
  | _ => cr1

/-- The castling rook relocation of `make_move_unchecked`: when a king moves
two columns, take whatever sits on the corner of the origin row (`none`
models the `unwrap` panic when that square is empty). -/
def relocateCastle (b : Board) (piece : Piece) (mv : Move) : Option Board :=
  match piece with
  | .King _ _ =>
    if ((mv.fromPos.col : Int) - (mv.toPos.col : Int)).natAbs = 2 then
      if mv.toPos.col = 6 then
        match getCell b mv.fromPos.row 7 with
        | some rook =>
          some (setCell (setCell b mv.fromPos.row 7 none) mv.fromPos.row 5 (some rook))
        | none => none
      else if mv.toPos.col = 2 then
        match getCell b mv.fromPos.row 0 with
        | some rook =>
          some (setCell (setCell b mv.fromPos.row 0 none) mv.fromPos.row 3 (some rook))
        | none => none
      else some b
    else some b
  | _ => some b

/-- En-passant target that `make_move_unchecked` stores: the intermediate
square after a two-row pawn move, `none` otherwise (the promotion path also
stores it, exactly as the Rust code does before its early return). -/
def epAfter (piece : Piece) (mv : Move) : Option Position :=
  match piece with
  | .Pawn _ _ =>
    if ((mv.fromPos.row : Int) - (mv.toPos.row : Int)).natAbs = 2 then
      some ⟨(mv.fromPos.row + mv.toPos.row) / 2, mv.fromPos.col⟩
    else none
  | _ => none

/-- Board updates of `make_move_unchecked` after the castling relocation:
en-passant removal of the passed pawn, then either the promotion piece or the
moved piece lands on the destination square. -/
def isEpMove (st : Chessboard) (mv : Move) : Bool :=
  match st.en_passant_target with
  | some epp => decide (mv.toPos.row = epp.row ∧ mv.toPos.col = epp.col)
  | none => false

def finishBoard (st : Chessboard) (piece : Piece) (b1 : Board) (mv : Move) : Board :=
  match piece with
  | .Pawn _ _ =>
    let isEp : Bool := isEpMove st mv
    let b2 := if isEp then setCell b1 mv.fromPos.row mv.toPos.col none else b1
    match mv.promotion with
    | some pr => setCell b2 mv.toPos.row mv.toPos.col (some pr)
    | none =>
      let b3 := if isEp then b2 else setCell b2 mv.toPos.row mv.toPos.col none
      setCell b3 mv.toPos.row mv.toPos.col (some piece)
  | _ =>
    setCell (setCell b1 mv.toPos.row mv.toPos.col none) mv.toPos.row mv.toPos.col
      (some piece)

/-- `Chessboard::make_move_unchecked`; `none` models a panic (taking an empty
origin square, or the castling `unwrap` on an empty corner).  The Rust
statement order is: take the origin piece, castling rook relocation, castling
rights update, pawn handling (en-passant removal, en-passant target,
promotion), final placement, turn flip. -/
def Chessboard.make_move_unchecked (st : Chessboard) (mv : Move) : Option Chessboard :=
  (getCell st.board mv.fromPos.row mv.fromPos.col).bind (fun piece =>
    (relocateCastle (setCell st.board mv.fromPos.row mv.fromPos.col none) piece mv).map
      (fun b1 =>
        { board := finishBoard st piece b1 mv
          current_turn := st.current_turn.opposite
          castling_rights := rightsAfter st.castling_rights piece mv
          en_passant_target := epAfter piece mv
          move_history := st.move_history }))

/-- Filter in the `Option` monad: `none` as soon as the predicate is `none`
on some element (a panic inside the legality filter). -/
def optFilter (p : α → Option Bool) : List α → Option (List α)
  | [] => some []
  | a :: rest =>
    match p a with
    | none => none
    | some keep => (optFilter p rest).map (fun r => if keep then a :: r else r)

/-- `Chessboard::get_legal_moves`: pattern candidates by piece kind, then the
simulate-and-check legality filter. -/
def Chessboard.get_legal_moves (st : Chessboard) (frm : Position) : Option (List Move) :=
  match getCell st.board frm.row frm.col with
  | none => some []
  | some piece =>
    if piece.color ≠ st.current_turn then some []
    else
      let cands : Option (List Move) :=
        match piece with
        | .Pawn c _ => some (st.pawn_moves frm c)
        | .Knight c => some (st.knight_moves frm c)
        | .Bishop c => some (st.bishop_moves frm c)
        | .Rook c _ => some (st.rook_moves frm c)
        | .Queen c => some (st.queen_moves frm c)
        | .King c _ => st.king_moves frm c
      match cands with
      | none => none
      | some ms =>
        optFilter (fun mv =>
          (st.make_move_unchecked mv).bind (fun tb =>
            (tb.is_in_check piece.color).map (fun b => !b))) ms

/-- `Result<(), String>` of `make_move`. -/
inductive MoveResult where
  | ok
  | err (msg : String)
deriving DecidableEq, Repr

/-- Promotion letter appended to the move-history entry. -/
def promoSymbol : Piece → String
  | .Queen _ => "Q"
  | .Rook _ _ => "R"
  | .Bishop _ => "B"
  | .Knight _ => "N"
  | _ => ""

/-- The move-history entry `make_move` records: the move's notation, with the
promotion letter appended when a promotion piece is present. -/
def histAfter (st : Chessboard) (mv : Move) : List String :=
  match mv.promotion with
  | some pr => st.move_history ++ [mv.toAlgebraic ++ promoSymbol pr]
  | none => st.move_history ++ [mv.toAlgebraic]

/-- `Chessboard::make_move`: re-derive the legal moves of the origin square,
fail (state unchanged) unless the (from, to) pair appears there, else record
the notation and apply `make_move_unchecked`.  The pair holds the state after
the call together with the returned `Result`; `none` models a panic. -/
def Chessboard.make_move (st : Chessboard) (mv : Move) :
    Option (Chessboard × MoveResult) :=
  match st.get_legal_moves mv.fromPos with
  | none => none
  | some lms =>
    if !(lms.any (fun lm =>
           decide (lm.fromPos = mv.fromPos ∧ lm.toPos = mv.toPos))) then
      some (st, .err "非法的移动")
    else
      match Chessboard.make_move_unchecked
              { st with move_history := histAfter st mv } mv with
      | none => none
      | some st' => some (st', .ok)

/-- Successively apply `make_move`, requiring every move to succeed. -/
def Chessboard.play : Chessboard → List Move → Option Chessboard
  | st, [] => some st
  | st, mv :: ms =>
    match st.make_move mv with
    | some (st', .ok) => st'.play ms
    | _ => none

/-- A game from the initial position. -/
def playGame (ms : List Move) : Option Chessboard :=
  Chessboard.new.play ms

/-- Does any piece of the side to move have a legal move?  Mirrors the
early-return scan shared by `is_checkmate` and `is_stalemate`. -/
def Chessboard.any_legal_move (st : Chessboard) : List Position → Option Bool
  | [] => some false
  | p :: ps =>
    match getCell st.board p.row p.col with
    | some piece =>
      if piece.color = st.current_turn then
        match st.get_legal_moves p with
        | none => none
        | some ms => if ms.isEmpty then st.any_legal_move ps else some true
      else st.any_legal_move ps
    | none => st.any_legal_move ps

/-- `Chessboard::is_checkmate`. -/
def Chessboard.is_checkmate (st : Chessboard) : Option Bool :=
  (st.is_in_check st.current_turn).bind (fun chk =>
    if !chk then some false
    else (st.any_legal_move allPositions).map (fun h => !h))

/-- `Chessboard::is_stalemate`. -/
def Chessboard.is_stalemate (st : Chessboard) : Option Bool :=
  (st.is_in_check st.current_turn).bind (fun chk =>
    if chk then some false
    else (st.any_legal_move allPositions).map (fun h => !h))

/-- FEN letter of a piece (`to_fen`). -/
def pieceFenChar : Piece → Char
  | .King .White _ => 'K'
  | .Queen .White => 'Q'
  | .Rook .White _ => 'R'
  | .Bishop .White => 'B'
  | .Knight .White => 'N'
  | .Pawn .White _ => 'P'
  | .King .Black _ => 'k'
  | .Queen .Black => 'q'
  | .Rook .Black _ => 'r'
  | .Bishop .Black => 'b'
  | .Knight .Black => 'n'
  | .Pawn .Black _ => 'p'

/-- One rank of `to_fen`: runs of empty squares become their decimal count. -/
def rowFenAux : List (Option Piece) → Nat → String
  | [], acc => if acc > 0 then Nat.repr acc else ""
  | some p :: rest, acc =>
    (if acc > 0 then Nat.repr acc else "") ++
    String.singleton (pieceFenChar p) ++ rowFenAux rest 0
  | none :: rest, acc => rowFenAux rest (acc + 1)

/-- `Chessboard::to_fen` (from `fen_converter.rs`): board, side to move,
castling letters, en-passant target, then the fixed `0 1` counters. -/
def Chessboard.to_fen (st : Chessboard) : String :=
  String.intercalate "/" (st.board.map (fun row => rowFenAux row 0))
  ++ " " ++ (match st.current_turn with | .White => "w" | .Black => "b")
  ++ " " ++
  (let cs : String :=
    (if st.castling_rights.white_kingside then "K" else "") ++
    (if st.castling_rights.white_queenside then "Q" else "") ++
    (if st.castling_rights.black_kingside then "k" else "") ++
    (if st.castling_rights.black_queenside then "q" else "")
   if cs = "" then "-" else cs)
  ++ " " ++
  (match st.en_passant_target with
   | some p => p.toAlgebraic
   | none => "-")
  ++ " 0 1"


/-- Shorthand for a plain (no-promotion) move between two squares. -/
def mvMk (r1 c1 r2 c2 : Nat) : Move :=
  ⟨⟨r1, c1⟩, ⟨r2, c2⟩, none⟩

/-- Ten moves from the initial position: g2g3, Nh6, Bg2, Ng4, b3, Nxf2, b4,
Nxh1, Nf3, Nf2.  Afterwards White's h1 rook has been captured while the white
kingside right is still set, f1/g1/h1 are empty and none of e1/f1/g1 is
attacked, so the kingside castling candidate is generated and its simulation
takes the empty h1 corner. -/
def demoMoves : List Move :=
  [mvMk 6 6 5 6, mvMk 0 6 2 7, mvMk 7 5 6 6, mvMk 2 7 4 6, mvMk 6 1 5 1,
   mvMk 4 6 6 5, mvMk 5 1 4 1, mvMk 6 5 7 7, mvMk 7 6 5 5, mvMk 7 7 6 5]

/-- The state reached by `demoMoves`. -/
def demoState : Chessboard :=
  (playGame demoMoves).getD Chessboard.new


/-- Number of kings of a color on the board. -/
def countKings (st : Chessboard) (c : Color) : Nat :=
  (allPositions.filter (fun p =>
    match getCell st.board p.row p.col with
    | some (.King kc _) => decide (kc = c)
    | _ => false)).length

/-- A sparse position: kings on e8/e1, a white rook on a5 (column 0 but not
the a1 corner), White to move, all rights set. -/
def rookDriftState : Chessboard where
  board := [emptyRow.set 4 (some (.King .Black false)), emptyRow, emptyRow,
            emptyRow.set 0 (some (.Rook .White false)), emptyRow, emptyRow,
            emptyRow, emptyRow.set 4 (some (.King .White false))]
  current_turn := .White
  castling_rights :=
    { white_kingside := true, white_queenside := true
      black_kingside := false, black_queenside := false }
  en_passant_target := none
  move_history := []

/-- Every successful `make_move_unchecked` flips the turn, updates the
castling rights through `rightsAfter`, stores `epAfter` as the en-passant
target and leaves the move history alone. -/
theorem make_move_unchecked_fields (st : Chessboard) (mv : Move) (st' : Chessboard)
    (h : st.make_move_unchecked mv = some st') :
    ∃ piece, getCell st.board mv.fromPos.row mv.fromPos.col = some piece ∧
      st'.current_turn = st.current_turn.opposite ∧
      st'.castling_rights = rightsAfter st.castling_rights piece mv ∧
      st'.en_passant_target = epAfter piece mv ∧
      st'.move_history = st.move_history := by
  simp only [Chessboard.make_move_unchecked, Option.bind_eq_some, Option.map_eq_some'] at h
  obtain ⟨piece, hc, b1, hrel, hst⟩ := h
  exact ⟨piece, hc, by rw [← hst]; exact ⟨rfl, rfl, rfl, rfl⟩⟩

/-- Success of `make_move` is: the (from, to) pair occurs in the legal-move
list of the origin square, and `make_move_unchecked` succeeds on the state
with the extended move history. -/
theorem make_move_ok_elim (st : Chessboard) (mv : Move) (st' : Chessboard)
    (h : st.make_move mv = some (st', .ok)) :
    ∃ lms, st.get_legal_moves mv.fromPos = some lms ∧
      lms.any (fun lm =>
        decide (lm.fromPos = mv.fromPos ∧ lm.toPos = mv.toPos)) = true ∧
      Chessboard.make_move_unchecked
        { st with move_history := histAfter st mv } mv = some st' := by
  unfold Chessboard.make_move at h
  split at h
  · exact Option.noConfusion h
  next lms hlms =>
    split at h
    · simp at h
    next hany =>
      split at h
      · exact Option.noConfusion h
      next st2 hmmu =>
        refine ⟨lms, hlms, ?_, ?_⟩
        · simpa using hany
        · injection h with h2
          injection h2 with h3 h4
          rw [h3] at hmmu
          exact hmmu

/-- An error result of `make_move` returns the state unchanged. -/
theorem make_move_err_elim (st : Chessboard) (mv : Move) (st' : Chessboard)
    (msg : String) (h : st.make_move mv = some (st', .err msg)) : st' = st := by
  unfold Chessboard.make_move at h
  split at h
  · exact Option.noConfusion h
  · split at h
    · injection h with h2
      injection h2 with h3 h4
      exact h3.symm
    · split at h
      · exact Option.noConfusion h
      · injection h with h2
        injection h2 with h3 h4
        exact absurd h4.symm (by simp)

/-- `rightsAfter` only ever clears rights: each right that is set afterwards
was already set before. -/
theorem rightsAfter_le (cr : CastlingRights) (piece : Piece) (mv : Move) :
    ((rightsAfter cr piece mv).white_kingside = true → cr.white_kingside = true) ∧
    ((rightsAfter cr piece mv).white_queenside = true → cr.white_queenside = true) ∧
    ((rightsAfter cr piece mv).black_kingside = true → cr.black_kingside = true) ∧
    ((rightsAfter cr piece mv).black_queenside = true → cr.black_queenside = true) := by
  cases piece with
  | King c b => cases c <;> simp [rightsAfter]
  | Rook c b =>
    cases c <;> simp only [rightsAfter] <;> split_ifs <;> simp
  | Queen c => simp [rightsAfter]
  | Bishop c => simp [rightsAfter]
  | Knight c => simp [rightsAfter]
  | Pawn c b => simp [rightsAfter]

/-- A successful `make_move_unchecked` only ever clears castling rights. -/
theorem make_move_unchecked_rights_le (st : Chessboard) (mv : Move) (st' : Chessboard)
    (h : st.make_move_unchecked mv = some st') :
    (st'.castling_rights.white_kingside = true → st.castling_rights.white_kingside = true) ∧
    (st'.castling_rights.white_queenside = true → st.castling_rights.white_queenside = true) ∧
    (st'.castling_rights.black_kingside = true → st.castling_rights.black_kingside = true) ∧
    (st'.castling_rights.black_queenside = true → st.castling_rights.black_queenside = true) := by
  obtain ⟨piece, _, _, hcr, _, _⟩ := make_move_unchecked_fields st mv st' h
  rw [hcr]
  exact rightsAfter_le st.castling_rights piece mv

/-- A successful `make_move` only ever clears castling rights. -/
theorem make_move_rights_le (st : Chessboard) (mv : Move) (st' : Chessboard)
    (h : st.make_move mv = some (st', .ok)) :
    (st'.castling_rights.white_kingside = true → st.castling_rights.white_kingside = true) ∧
    (st'.castling_rights.white_queenside = true → st.castling_rights.white_queenside = true) ∧
    (st'.castling_rights.black_kingside = true → st.castling_rights.black_kingside = true) ∧
    (st'.castling_rights.black_queenside = true → st.castling_rights.black_queenside = true) := by
  obtain ⟨lms, _, _, hmmu⟩ := make_move_ok_elim st mv st' h
  exact make_move_unchecked_rights_le
    { st with move_history := histAfter st mv } mv st' hmmu

/-- Along any successfully played move sequence, castling rights only get
cleared, never re-set. -/
theorem play_rights_le (st : Chessboard) (mvs : List Move) (st' : Chessboard)
    (h : st.play mvs = some st') :
    (st'.castling_rights.white_kingside = true → st.castling_rights.white_kingside = true) ∧
    (st'.castling_rights.white_queenside = true → st.castling_rights.white_queenside = true) ∧
    (st'.castling_rights.black_kingside = true → st.castling_rights.black_kingside = true) ∧
    (st'.castling_rights.black_queenside = true → st.castling_rights.black_queenside = true) := by
  induction mvs generalizing st with
  | nil =>
    simp only [Chessboard.play, Option.some.injEq] at h
    subst h
    exact ⟨id, id, id, id⟩
  | cons mv ms ih =>
    simp only [Chessboard.play] at h
    split at h
    next st1 hmv =>
      obtain ⟨h1, h2, h3, h4⟩ := make_move_rights_le st mv st1 hmv
      obtain ⟨g1, g2, g3, g4⟩ := ih st1 h
      exact ⟨fun a => h1 (g1 a), fun a => h2 (g2 a), fun a => h3 (g3 a), fun a => h4 (g4 a)⟩
    next hne => exact Option.noConfusion h

/-- Implication transport for cleared booleans. -/
theorem bool_le_contra {a b : Bool} (h : a = true → b = true) :
    b = false → a = false := by
  intro hb
  cases ha : a
  · rfl
  · rw [h ha] at hb
    exact hb

/-- The state after playing e2 e4 from the initial position. -/
def stE2E4 : Chessboard :=
  (playGame [mvMk 6 4 4 4]).getD Chessboard.new

/-- `rookDriftState` after the white rook move a5 a4. -/
def rookDriftState2 : Chessboard :=
  (rookDriftState.play [mvMk 3 0 4 0]).getD rookDriftState

/-- `rookDriftState2` after the black king move e8 d8. -/
def rookDriftState3 : Chessboard :=
  (rookDriftState2.play [mvMk 0 4 0 3]).getD rookDriftState2

/-- C1: from the initial position the ten `demoMoves` all succeed, reaching a
state where White still holds the kingside castling right but the h1 rook has
been captured; submitting the castling move e1 g1 there makes `make_move`
panic (the castling simulation unwraps the empty h1 corner), contradicting
the claim that `make_move` never panics on reachable states. -/
theorem c1_make_move_panics_on_reachable_state :
    (playGame demoMoves).isSome = true ∧
    demoState.make_move (mvMk 7 4 7 6) = none := by
  constructor
  · decide
  · decide

/-- C2: the initial board has one king per color, but a single successful
`make_move` — the legal pawn push e2 e3 submitted with a `King` promotion
payload, which `make_move` accepts because it matches moves by (from, to)
only — yields a state with two white kings. -/
theorem c2_king_duplication_bug :
    countKings Chessboard.new .White = 1 ∧
    countKings Chessboard.new .Black = 1 ∧
    (Chessboard.new.make_move ⟨⟨6,4⟩, ⟨5,4⟩, some (.King .White false)⟩).map
      (fun r => (countKings r.1 .White, r.2)) = some (2, .ok) := by
  refine ⟨by decide, by decide, by decide⟩

/-- C3 counterexample: a white rook standing on a5 — column 0 but not the a1
corner — moves to a4; the move is accepted and clears the white queenside
right, although the claim says rights change only for rook moves from the
original corner square. -/
theorem c3_counterexample_rook_off_corner :
    getCell rookDriftState.board 3 0 = some (.Rook .White false) ∧
    rookDriftState.castling_rights.white_queenside = true ∧
    (rookDriftState.make_move (mvMk 3 0 4 0)).map
      (fun r => (r.1.castling_rights.white_queenside, r.2)) = some (false, .ok) := by
  refine ⟨by decide, by decide, by decide⟩

/-- C3 (amended): for every applied move, a king move clears both rights of
the moving color; a rook move clears the queenside (column 0) or kingside
(column 7) right of the rook's color judged by the origin column alone,
regardless of the origin row; every other applied move leaves all four
rights unchanged. -/
theorem c3_rights_frame (st : Chessboard) (mv : Move) (st' : Chessboard)
    (h : st.make_move_unchecked mv = some st') :
    (∀ b, getCell st.board mv.fromPos.row mv.fromPos.col = some (.King .White b) →
      st'.castling_rights =
        { st.castling_rights with white_kingside := false, white_queenside := false }) ∧
    (∀ b, getCell st.board mv.fromPos.row mv.fromPos.col = some (.King .Black b) →
      st'.castling_rights =
        { st.castling_rights with black_kingside := false, black_queenside := false }) ∧
    (∀ b, getCell st.board mv.fromPos.row mv.fromPos.col = some (.Rook .White b) →
      st'.castling_rights =
        (if mv.fromPos.col = 0 then
          { st.castling_rights with white_queenside := false }
         else if mv.fromPos.col = 7 then
          { st.castling_rights with white_kingside := false }
         else st.castling_rights)) ∧
    (∀ b, getCell st.board mv.fromPos.row mv.fromPos.col = some (.Rook .Black b) →
      st'.castling_rights =
        (if mv.fromPos.col = 0 then
          { st.castling_rights with black_queenside := false }
         else if mv.fromPos.col = 7 then
          { st.castling_rights with black_kingside := false }
         else st.castling_rights)) ∧
    (∀ piece, getCell st.board mv.fromPos.row mv.fromPos.col = some piece →
      (∀ c b, piece ≠ .King c b) → (∀ c b, piece ≠ .Rook c b) →
      st'.castling_rights = st.castling_rights) := by
  obtain ⟨piece, hc, _, hcr, _, _⟩ := make_move_unchecked_fields st mv st' h
  refine ⟨?_, ?_, ?_, ?_, ?_⟩
  · intro b hcb
    rw [hc] at hcb
    injection hcb with hpe
    subst hpe
    rw [hcr]
    rfl
  · intro b hcb
    rw [hc] at hcb
    injection hcb with hpe
    subst hpe
    rw [hcr]
    rfl
  · intro b hcb
    rw [hc] at hcb
    injection hcb with hpe
    subst hpe
    rw [hcr]
    simp only [rightsAfter]
  · intro b hcb
    rw [hc] at hcb
    injection hcb with hpe
    subst hpe
    rw [hcr]
    simp only [rightsAfter]
  · intro piece2 hcb hnk hnr
    rw [hc] at hcb
    injection hcb with hpe
    subst hpe
    rw [hcr]
    cases piece with
    | King c b => exact absurd rfl (hnk c b)
    | Rook c b => exact absurd rfl (hnr c b)
    | Queen c => rfl
    | Bishop c => rfl
    | Knight c => rfl
    | Pawn c b => rfl

/-- C3 witness: a concrete knight move leaves all four rights unchanged. -/
theorem c3_rights_frame_witness :
    stE2E4.castling_rights = Chessboard.new.castling_rights := by
  have hmv : Chessboard.make_move_unchecked
      { Chessboard.new with move_history := histAfter Chessboard.new (mvMk 6 4 4 4) }
      (mvMk 6 4 4 4) = some stE2E4 := by decide
  have h5 := (c3_rights_frame _ (mvMk 6 4 4 4) stE2E4 hmv).2.2.2.2
  exact h5 (.Pawn .White false) (by decide)
    (fun c b hx => Piece.noConfusion hx) (fun c b hx => Piece.noConfusion hx)

/-- C5: for every move applied by the mutator, a pawn move of exactly two
rows sets the en-passant target to the square on the origin column whose row
lies strictly between origin and destination; every other applied move
clears the target to `none`. -/
theorem c5_en_passant_target (st : Chessboard) (mv : Move) (st' : Chessboard)
    (h : st.make_move_unchecked mv = some st') :
    (∀ c b, getCell st.board mv.fromPos.row mv.fromPos.col = some (.Pawn c b) →
      ((((mv.fromPos.row : Int) - (mv.toPos.row : Int)).natAbs = 2 →
        st'.en_passant_target =
          some ⟨min mv.fromPos.row mv.toPos.row + 1, mv.fromPos.col⟩) ∧
      (((mv.fromPos.row : Int) - (mv.toPos.row : Int)).natAbs ≠ 2 →
        st'.en_passant_target = none))) ∧
    (∀ piece, getCell st.board mv.fromPos.row mv.fromPos.col = some piece →
      (∀ c b, piece ≠ .Pawn c b) → st'.en_passant_target = none) := by
  obtain ⟨piece, hc, _, _, hep, _⟩ := make_move_unchecked_fields st mv st' h
  constructor
  · intro c b hcb
    rw [hc] at hcb
    injection hcb with hpe
    subst hpe
    constructor
    · intro h2
      rw [hep]
      simp only [epAfter, if_pos h2]
      have h3 : (mv.fromPos.row + mv.toPos.row) / 2 =
          min mv.fromPos.row mv.toPos.row + 1 := by
        have h4 : mv.fromPos.row = mv.toPos.row + 2 ∨
            mv.toPos.row = mv.fromPos.row + 2 := by omega
        rcases h4 with h4 | h4 <;> rw [h4] <;> omega
      rw [h3]
    · intro h2
      rw [hep]
      simp [epAfter, h2]
  · intro piece2 hcb hnp
    rw [hc] at hcb
    injection hcb with hpe
    subst hpe
    rw [hep]
    cases piece with
    | Pawn c b => exact absurd rfl (hnp c b)
    | King c b => rfl
    | Queen c => rfl
    | Rook c b => rfl
    | Bishop c => rfl
    | Knight c => rfl

/-- C5 witness: the double push e2 e4 from the initial position stores e3 as
the en-passant target. -/
theorem c5_en_passant_target_witness :
    stE2E4.en_passant_target = some ⟨5, 4⟩ := by
  have hmv : Chessboard.make_move_unchecked
      { Chessboard.new with move_history := histAfter Chessboard.new (mvMk 6 4 4 4) }
      (mvMk 6 4 4 4) = some stE2E4 := by decide
  have h5 := ((c5_en_passant_target _ (mvMk 6 4 4 4) stE2E4 hmv).1
    .White false (by decide)).1 (by decide)
  simpa using h5

/-- C6: every successful `make_move` flips the side to move, so the current
turn strictly alternates along any sequence of successful moves. -/
theorem c6_turn_alternates (st : Chessboard) (mv : Move) (st' : Chessboard)
    (h : st.make_move mv = some (st', .ok)) :
    st'.current_turn = st.current_turn.opposite := by
  obtain ⟨lms, _, _, hmmu⟩ := make_move_ok_elim st mv st' h
  obtain ⟨piece, _, hturn, _⟩ := make_move_unchecked_fields _ mv st' hmmu
  exact hturn

/-- C6 witness: after e2 e4 it is Black's turn. -/
theorem c6_turn_alternates_witness : stE2E4.current_turn = Color.Black := by
  have h := c6_turn_alternates Chessboard.new (mvMk 6 4 4 4) stE2E4 (by decide)
  simpa using h

/-- C7: the four castling rights all start `true`, and a right that is
`false` stays `false` through every further successful `make_move` and hence
through every later reachable state; no operation re-sets a right. -/
theorem c7_rights_monotone :
    (Chessboard.new.castling_rights.white_kingside = true ∧
     Chessboard.new.castling_rights.white_queenside = true ∧
     Chessboard.new.castling_rights.black_kingside = true ∧
     Chessboard.new.castling_rights.black_queenside = true) ∧
    (∀ st mv st', Chessboard.make_move st mv = some (st', .ok) →
      (st.castling_rights.white_kingside = false →
        st'.castling_rights.white_kingside = false) ∧
      (st.castling_rights.white_queenside = false →
        st'.castling_rights.white_queenside = false) ∧
      (st.castling_rights.black_kingside = false →
        st'.castling_rights.black_kingside = false) ∧
      (st.castling_rights.black_queenside = false →
        st'.castling_rights.black_queenside = false)) ∧
    (∀ st mvs st', Chessboard.play st mvs = some st' →
      (st.castling_rights.white_kingside = false →
        st'.castling_rights.white_kingside = false) ∧
      (st.castling_rights.white_queenside = false →
        st'.castling_rights.white_queenside = false) ∧
      (st.castling_rights.black_kingside = false →
        st'.castling_rights.black_kingside = false) ∧
      (st.castling_rights.black_queenside = false →
        st'.castling_rights.black_queenside = false)) := by
  refine ⟨⟨rfl, rfl, rfl, rfl⟩, ?_, ?_⟩
  · intro st mv st' h
    obtain ⟨h1, h2, h3, h4⟩ := make_move_rights_le st mv st' h
    exact ⟨bool_le_contra h1, bool_le_contra h2, bool_le_contra h3, bool_le_contra h4⟩
  · intro st mvs st' h
    obtain ⟨h1, h2, h3, h4⟩ := play_rights_le st mvs st' h
    exact ⟨bool_le_contra h1, bool_le_contra h2, bool_le_contra h3, bool_le_contra h4⟩

/-- C7 witness: the white queenside right, cleared by the rook move a5 a4,
is still cleared after the further move e8 d8. -/
theorem c7_rights_monotone_witness :
    rookDriftState3.castling_rights.white_queenside = false :=
  (c7_rights_monotone.2.2 rookDriftState2 [mvMk 0 4 0 3] rookDriftState3
    (by decide)).2.1 (by decide)

/-- C8: `to_fen` on the freshly constructed initial board is exactly the
standard initial FEN string. -/
theorem c8_initial_fen :
    Chessboard.new.to_fen =
      "rnbqkbnr/pppppppp/8/8/8/8/PPPPPPPP/RNBQKBNR w KQkq - 0 1" := by
  decide

/-- A well-formed two-character algebraic square name: file `a`..`h` followed
by rank `1`..`8`. -/
def ValidAlg (s : String) : Prop :=
  ∃ c1 c2, s.data = [c1, c2] ∧ 'a' ≤ c1 ∧ c1 ≤ 'h' ∧ '1' ≤ c2 ∧ c2 ≤ '8'

/-- C10: square notation is a bijection on the valid range.  Every in-range
position round-trips through its notation; every parse success yields an
in-range position whose notation is the input string, and it happens exactly
on the well-formed two-character names, so malformed input never produces a
position. -/
theorem c10_position_notation_bijection :
    (∀ row, row < 8 → ∀ col, col < 8 →
      Position.fromAlgebraic (Position.toAlgebraic ⟨row, col⟩) = some ⟨row, col⟩) ∧
    (∀ s : String,
      (∀ q, Position.fromAlgebraic s = some q →
        q.row < 8 ∧ q.col < 8 ∧ q.toAlgebraic = s ∧ ValidAlg s) ∧
      (Position.fromAlgebraic s = none → ¬ ValidAlg s)) := by
  constructor
  · decide
  · intro s
    obtain ⟨data⟩ := s
    rcases data with _ | ⟨c1, _ | ⟨c2, _ | ⟨c3, rest⟩⟩⟩
    · constructor
      · intro q hq
        simp [Position.fromAlgebraic] at hq
      · intro _ hv
        obtain ⟨d1, d2, hdd, _⟩ := hv
        simp at hdd
    · constructor
      · intro q hq
        simp [Position.fromAlgebraic] at hq
      · intro _ hv
        obtain ⟨d1, d2, hdd, _⟩ := hv
        simp at hdd
    · -- the two-character case
      constructor
      · intro q hq
        simp only [Position.fromAlgebraic] at hq
        split_ifs at hq with h1 h2
        · obtain ⟨h1a, h1b⟩ := h1
          obtain ⟨h2a, h2b⟩ := h2
          injection hq with hq2
          subst hq2
          refine ⟨?_, ?_, ?_, c1, c2, rfl, h1a, h1b, h2a, h2b⟩
          · show 8 - (c2.toNat - 49) - 1 < 8
            omega
          · show c1.toNat - 97 < 8
            have hb : c1.toNat ≤ 104 := h1b
            omega
          · have e1 : c1 = Char.ofNat c1.toNat := (Char.ofNat_toNat c1).symm
            have e2 : c2 = Char.ofNat c2.toNat := (Char.ofNat_toNat c2).symm
            have b1 : 97 ≤ c1.toNat := h1a
            have b2 : c1.toNat ≤ 104 := h1b
            have b3 : 49 ≤ c2.toNat := h2a
            have b4 : c2.toNat ≤ 56 := h2b
            generalize hg1 : c1.toNat = n1 at b1 b2 e1 ⊢
            generalize hg2 : c2.toNat = n2 at b3 b4 e2 ⊢
            subst e1
            subst e2
            interval_cases n1 <;> interval_cases n2 <;> decide
      · intro hnone hv
        obtain ⟨d1, d2, hdd, k1, k2, k3, k4⟩ := hv
        simp only [List.cons.injEq] at hdd
        obtain ⟨hd1, hd2, -⟩ := hdd
        subst hd1
        subst hd2
        simp only [Position.fromAlgebraic] at hnone
        by_cases h1 : 'a' ≤ c1 ∧ c1 ≤ 'h'
        · by_cases h2 : '1' ≤ c2 ∧ c2 ≤ '8'
          · rw [if_pos h1, if_pos h2] at hnone
            exact Option.noConfusion hnone
          · exact h2 ⟨k3, k4⟩
        · exact h1 ⟨k1, k2⟩
    · constructor
      · intro q hq
        simp [Position.fromAlgebraic] at hq
      · intro _ hv
        obtain ⟨d1, d2, hdd, _⟩ := hv
        simp at hdd

/-- C10 witness: the name e2 parses to (6,4) and prints back to e2. -/
theorem c10_position_notation_bijection_witness :
    Position.toAlgebraic ⟨6, 4⟩ = "e2" ∧
    Position.fromAlgebraic "e2" = some ⟨6, 4⟩ := by
  have h := (c10_position_notation_bijection.2 "e2").1 ⟨6, 4⟩ (by decide)
  exact ⟨h.2.2.1, by decide⟩

/-- Reset the vestigial boolean flag on King/Rook/Pawn pieces. -/
def erasePiece : Piece → Piece
  | .King c _ => .King c false
  | .Rook c _ => .Rook c false
  | .Pawn c _ => .Pawn c false
  | .Queen c => .Queen c
  | .Bishop c => .Bishop c
  | .Knight c => .Knight c

def eraseBoard (b : Board) : Board :=
  b.map (fun row => row.map (Option.map erasePiece))

def eraseSt (st : Chessboard) : Chessboard :=
  { st with board := eraseBoard st.board }

/-- Two states that differ only in the vestigial piece flags. -/
def FlagEquiv (st1 st2 : Chessboard) : Prop :=
  eraseSt st1 = eraseSt st2

theorem erasePiece_color (p : Piece) : (erasePiece p).color = p.color := by
  cases p <;> rfl

theorem erasePiece_idem (p : Piece) : erasePiece (erasePiece p) = erasePiece p := by
  cases p <;> rfl

theorem row_getD_erase (row : List (Option Piece)) (c : Nat) :
    (row.map (Option.map erasePiece)).getD c none = (row.getD c none).map erasePiece := by
  induction row generalizing c with
  | nil => simp
  | cons a rest ih =>
    cases c with
    | zero => simp
    | succ c2 => simpa using ih c2

theorem board_getD_erase (b : Board) (r : Nat) :
    (b.map (fun row => row.map (Option.map erasePiece))).getD r [] =
    (b.getD r []).map (Option.map erasePiece) := by
  induction b generalizing r with
  | nil => simp
  | cons row rest ih =>
    cases r with
    | zero => simp
    | succ r2 => simpa using ih r2

theorem getCell_eraseBoard (b : Board) (r c : Nat) :
    getCell (eraseBoard b) r c = (getCell b r c).map erasePiece := by
  unfold getCell eraseBoard
  rw [board_getD_erase, row_getD_erase]

theorem setCell_eraseBoard (b : Board) (r c : Nat) (v : Option Piece) :
    eraseBoard (setCell b r c v) = setCell (eraseBoard b) r c (v.map erasePiece) := by
  unfold setCell eraseBoard
  rw [List.map_set, board_getD_erase, List.map_set]

theorem eraseBoard_idem (b : Board) :
    eraseBoard (eraseBoard b) = eraseBoard b := by
  unfold eraseBoard
  simp only [List.map_map]
  refine List.map_congr_left (fun row _ => ?_)
  simp only [Function.comp, List.map_map]
  refine List.map_congr_left (fun v _ => ?_)
  simp only [Function.comp]
  cases v with
  | none => rfl
  | some p => simp [erasePiece_idem]

theorem eraseSt_idem (st : Chessboard) : eraseSt (eraseSt st) = eraseSt st := by
  unfold eraseSt
  simp [eraseBoard_idem]

theorem find?_eq_of_pointwise {α : Type} (p q : α → Bool) (l : List α)
    (h : ∀ a, p a = q a) : l.find? p = l.find? q := by
  induction l with
  | nil => rfl
  | cons a rest ih =>
    simp only [List.find?]
    rw [h a]
    cases q a
    · exact ih
    · rfl

theorem optFilter_eq_of_pointwise {α : Type} (p q : α → Option Bool) (l : List α)
    (h : ∀ a, p a = q a) : optFilter p l = optFilter q l := by
  induction l with
  | nil => rfl
  | cons a rest ih =>
    simp only [optFilter]
    rw [h a, ih]

theorem filterMap_eq_of_pointwise {α β : Type} (f g : α → Option β) (l : List α)
    (h : ∀ a, f a = g a) : l.filterMap f = l.filterMap g := by
  induction l with
  | nil => rfl
  | cons a rest ih => simp only [List.filterMap_cons, h a, ih]

theorem any_eq_of_pointwise {α : Type} (p q : α → Bool) (l : List α)
    (h : ∀ a, p a = q a) : l.any p = l.any q := by
  induction l with
  | nil => rfl
  | cons a rest ih => simp only [List.any_cons, h a, ih]

theorem can_move_to_erase (st : Chessboard) (p : Position) (c : Color) :
    (eraseSt st).can_move_to p c = st.can_move_to p c := by
  unfold Chessboard.can_move_to
  simp only [show (eraseSt st).board = eraseBoard st.board from rfl, getCell_eraseBoard]
  cases getCell st.board p.row p.col with
  | none => rfl
  | some pc => simp [erasePiece_color]

theorem can_capture_erase (st : Chessboard) (p : Position) (c : Color) :
    (eraseSt st).can_capture p c = st.can_capture p c := by
  unfold Chessboard.can_capture
  simp only [show (eraseSt st).board = eraseBoard st.board from rfl, getCell_eraseBoard]
  cases getCell st.board p.row p.col with
  | none => rfl
  | some pc => simp [erasePiece_color]

theorem offset_moves_erase (st : Chessboard) (frm : Position) (c : Color)
    (offs : List (Int × Int)) :
    (eraseSt st).offset_moves frm c offs = st.offset_moves frm c offs := by
  unfold Chessboard.offset_moves
  refine filterMap_eq_of_pointwise _ _ _ (fun od => ?_)
  simp only [can_move_to_erase]

theorem slideRay_erase (st : Chessboard) (frm : Position) (c : Color) (dr dc : Int) :
    ∀ (fuel : Nat) (r cc : Int),
      (eraseSt st).slideRay frm c dr dc fuel r cc = st.slideRay frm c dr dc fuel r cc := by
  intro fuel
  induction fuel with
  | zero => intro r cc; rfl
  | succ f ih =>
    intro r cc
    unfold Chessboard.slideRay
    by_cases hb : 0 ≤ r ∧ r < 8 ∧ 0 ≤ cc ∧ cc < 8
    · rw [if_pos hb, if_pos hb]
      simp only [show (eraseSt st).board = eraseBoard st.board from rfl, getCell_eraseBoard]
      cases h : getCell st.board r.toNat cc.toNat with
      | none => simp only [Option.map_none', ih]
      | some pc => simp only [Option.map_some', can_capture_erase]
    · rw [if_neg hb, if_neg hb]

theorem sliding_moves_erase (st : Chessboard) (frm : Position) (c : Color)
    (dirs : List (Int × Int)) :
    (eraseSt st).sliding_moves frm c dirs = st.sliding_moves frm c dirs := by
  unfold Chessboard.sliding_moves
  congr 1
  refine List.map_congr_left (fun d _ => ?_)
  exact slideRay_erase st frm c d.1 d.2 8 _ _

theorem ep_candidate_erase (st : Chessboard) (frm : Position) (c : Color)
    (nr : Nat) (dir : Int) :
    (eraseSt st).ep_candidate frm c nr dir = st.ep_candidate frm c nr dir := by
  unfold Chessboard.ep_candidate
  simp only [show (eraseSt st).board = eraseBoard st.board from rfl,
    show (eraseSt st).en_passant_target = st.en_passant_target from rfl,
    getCell_eraseBoard]
  cases hep : st.en_passant_target with
  | none => rfl
  | some epp =>
    by_cases hcond : epp.row = nr ∧ ((epp.col : Int) - (frm.col : Int)).natAbs = 1
    · simp only [if_pos hcond]
      cases hbe : getCell st.board ((epp.row : Int) - dir).toNat epp.col with
      | none => rfl
      | some pc => cases pc <;> rfl
    · simp only [if_neg hcond]

theorem pawn_moves_erase (st : Chessboard) (frm : Position) (c : Color) :
    (eraseSt st).pawn_moves frm c = st.pawn_moves frm c := by
  unfold Chessboard.pawn_moves
  simp only [show (eraseSt st).board = eraseBoard st.board from rfl,
    show ∀ a b2 c2 d, (eraseSt st).add_pawn_move a b2 c2 d = st.add_pawn_move a b2 c2 d
      from fun _ _ _ _ => rfl,
    getCell_eraseBoard, can_capture_erase, Option.map_eq_none', ep_candidate_erase]

theorem rayFirst_erase (b : Board) (dr dc : Int) :
    ∀ (fuel : Nat) (r c : Int),
      rayFirst (eraseBoard b) dr dc fuel r c = (rayFirst b dr dc fuel r c).map erasePiece := by
  intro fuel
  induction fuel with
  | zero => intro r c; rfl
  | succ f ih =>
    intro r c
    unfold rayFirst
    by_cases hb : 0 ≤ r ∧ r < 8 ∧ 0 ≤ c ∧ c < 8
    · rw [if_pos hb, if_pos hb]
      rw [getCell_eraseBoard]
      cases h : getCell b r.toNat c.toNat with
      | none => simpa using ih (r + dr) (c + dc)
      | some pc => rfl
    · rw [if_neg hb, if_neg hb]
      rfl

theorem knightAt_erase (x : Option Piece) (byc : Color) :
    knightAt (x.map erasePiece) byc = knightAt x byc := by
  cases x with
  | none => rfl
  | some pc => cases pc <;> rfl

theorem pawnAt_erase (x : Option Piece) (byc : Color) :
    pawnAt (x.map erasePiece) byc = pawnAt x byc := by
  cases x with
  | none => rfl
  | some pc => cases pc <;> rfl

theorem kingAt_erase (x : Option Piece) (byc : Color) :
    kingAt (x.map erasePiece) byc = kingAt x byc := by
  cases x with
  | none => rfl
  | some pc => cases pc <;> rfl

theorem slideHit_erase (d : Int × Int) (x : Option Piece) (byc : Color) :
    slideHit d (x.map erasePiece) byc = slideHit d x byc := by
  cases x with
  | none => rfl
  | some pc => cases pc <;> simp [slideHit, erasePiece, Piece.color]

theorem is_square_attacked_erase (st : Chessboard) (p : Position) (byc : Color) :
    (eraseSt st).is_square_attacked p byc = st.is_square_attacked p byc := by
  unfold Chessboard.is_square_attacked
  simp only [show (eraseSt st).board = eraseBoard st.board from rfl,
    getCell_eraseBoard, rayFirst_erase, knightAt_erase, pawnAt_erase,
    kingAt_erase, slideHit_erase]

theorem rightsAfter_erase (cr : CastlingRights) (piece : Piece) (mv : Move) :
    rightsAfter cr (erasePiece piece) mv = rightsAfter cr piece mv := by
  cases piece <;> rfl

theorem epAfter_erase (piece : Piece) (mv : Move) :
    epAfter (erasePiece piece) mv = epAfter piece mv := by
  cases piece <;> rfl

theorem optionBindMap {α β γ : Type} (x : Option α) (g : α → β) (f : β → Option γ) :
    (x.map g).bind f = x.bind (fun a => f (g a)) := by
  cases x <;> rfl

theorem find_king_erase (st : Chessboard) (c : Color) :
    (eraseSt st).find_king c = st.find_king c := by
  unfold Chessboard.find_king
  refine find?_eq_of_pointwise _ _ _ (fun q => ?_)
  simp only [show (eraseSt st).board = eraseBoard st.board from rfl,
    getCell_eraseBoard, kingAt_erase]

theorem is_in_check_erase (st : Chessboard) (c : Color) :
    (eraseSt st).is_in_check c = st.is_in_check c := by
  unfold Chessboard.is_in_check
  rw [find_king_erase]
  simp only [is_square_attacked_erase]

theorem castling_moves_erase (st : Chessboard) (frm : Position) (c : Color) :
    (eraseSt st).castling_moves frm c = st.castling_moves frm c := by
  unfold Chessboard.castling_moves
  rw [is_in_check_erase]
  simp only [show (eraseSt st).castling_rights = st.castling_rights from rfl,
    show (eraseSt st).board = eraseBoard st.board from rfl,
    getCell_eraseBoard, Option.map_eq_none', is_square_attacked_erase]

theorem king_moves_erase (st : Chessboard) (frm : Position) (c : Color) :
    (eraseSt st).king_moves frm c = st.king_moves frm c := by
  unfold Chessboard.king_moves
  rw [castling_moves_erase]
  simp only [offset_moves_erase]

theorem relocateCastle_erase (b : Board) (piece : Piece) (mv : Move) :
    relocateCastle (eraseBoard b) (erasePiece piece) mv =
      (relocateCastle b piece mv).map eraseBoard := by
  cases piece with
  | King c fl =>
    simp only [relocateCastle, erasePiece]
    split_ifs with h1 h2 h3
    · simp only [getCell_eraseBoard]
      cases hc : getCell b mv.fromPos.row 7 with
      | none => rfl
      | some rook =>
        simp only [Option.map_some']
        rw [setCell_eraseBoard, setCell_eraseBoard]
        simp
    · simp only [getCell_eraseBoard]
      cases hc : getCell b mv.fromPos.row 0 with
      | none => rfl
      | some rook =>
        simp only [Option.map_some']
        rw [setCell_eraseBoard, setCell_eraseBoard]
        simp
    · rfl
    · rfl
  | Queen c => rfl
  | Rook c fl => rfl
  | Bishop c => rfl
  | Knight c => rfl
  | Pawn c fl => rfl

theorem finishBoard_erase (st : Chessboard) (piece : Piece) (b1 : Board) (mv : Move) :
    eraseBoard (finishBoard (eraseSt st) (erasePiece piece) (eraseBoard b1) mv) =
      eraseBoard (finishBoard st piece b1 mv) := by
  cases piece with
  | Pawn c fl =>
    simp only [finishBoard, erasePiece,
      show isEpMove (eraseSt st) mv = isEpMove st mv from rfl]
    generalize isEpMove st mv = bEp
    cases mv.promotion with
    | some pr =>
      cases bEp <;>
        simp [setCell_eraseBoard, eraseBoard_idem, erasePiece_idem]
    | none =>
      cases bEp <;>
        simp [setCell_eraseBoard, eraseBoard_idem, erasePiece_idem, erasePiece]
  | King c fl =>
    simp [finishBoard, erasePiece, setCell_eraseBoard, eraseBoard_idem]
  | Queen c =>
    simp [finishBoard, erasePiece, setCell_eraseBoard, eraseBoard_idem]
  | Rook c fl =>
    simp [finishBoard, erasePiece, setCell_eraseBoard, eraseBoard_idem]
  | Bishop c =>
    simp [finishBoard, erasePiece, setCell_eraseBoard, eraseBoard_idem]
  | Knight c =>
    simp [finishBoard, erasePiece, setCell_eraseBoard, eraseBoard_idem]

theorem make_move_unchecked_erase (st : Chessboard) (mv : Move) :
    ((eraseSt st).make_move_unchecked mv).map eraseSt =
      (st.make_move_unchecked mv).map eraseSt := by
  unfold Chessboard.make_move_unchecked
  simp only [show (eraseSt st).board = eraseBoard st.board from rfl, getCell_eraseBoard]
  cases hc : getCell st.board mv.fromPos.row mv.fromPos.col with
  | none => rfl
  | some piece =>
    simp only [Option.map_some', Option.some_bind]
    rw [show setCell (eraseBoard st.board) mv.fromPos.row mv.fromPos.col none =
          eraseBoard (setCell st.board mv.fromPos.row mv.fromPos.col none) by
        rw [setCell_eraseBoard]; rfl]
    rw [relocateCastle_erase]
    cases hrel : relocateCastle (setCell st.board mv.fromPos.row mv.fromPos.col none)
        piece mv with
    | none => rfl
    | some b1 =>
      simp only [Option.map_some', Option.map_map, Function.comp]
      congr 1
      have hb := finishBoard_erase st piece b1 mv
      have hr := rightsAfter_erase st.castling_rights piece mv
      have he := epAfter_erase piece mv
      simp only [eraseSt] at hb ⊢
      simp only [hb, hr, he]

theorem get_legal_moves_erase (st : Chessboard) (frm : Position) :
    (eraseSt st).get_legal_moves frm = st.get_legal_moves frm := by
  unfold Chessboard.get_legal_moves
  simp only [show (eraseSt st).board = eraseBoard st.board from rfl,
    show (eraseSt st).current_turn = st.current_turn from rfl, getCell_eraseBoard]
  cases hc : getCell st.board frm.row frm.col with
  | none => rfl
  | some piece =>
    simp only [Option.map_some', erasePiece_color]
    by_cases ht : piece.color ≠ st.current_turn
    · rw [if_pos ht, if_pos ht]
    · rw [if_neg ht, if_neg ht]
      have hpred : ∀ (pc : Color) (m : Move),
          ((eraseSt st).make_move_unchecked m).bind
            (fun tb => (tb.is_in_check pc).map (fun b => !b)) =
          (st.make_move_unchecked m).bind
            (fun tb => (tb.is_in_check pc).map (fun b => !b)) := by
        intro pc m
        have h1 : ∀ (x : Option Chessboard),
            x.bind (fun tb => (tb.is_in_check pc).map (fun b => !b)) =
            (x.map eraseSt).bind (fun tb => (tb.is_in_check pc).map (fun b => !b)) := by
          intro x
          rw [optionBindMap]
          cases x with
          | none => rfl
          | some tb => simp only [Option.some_bind, is_in_check_erase]
        rw [h1, make_move_unchecked_erase, ← h1]
      cases piece with
      | Pawn c fl =>
        simp only [erasePiece, pawn_moves_erase]
        exact optFilter_eq_of_pointwise _ _ _ (fun m => hpred c m)
      | Knight c =>
        simp only [erasePiece, Chessboard.knight_moves, offset_moves_erase]
        exact optFilter_eq_of_pointwise _ _ _ (fun m => hpred c m)
      | Bishop c =>
        simp only [erasePiece, Chessboard.bishop_moves, sliding_moves_erase]
        exact optFilter_eq_of_pointwise _ _ _ (fun m => hpred c m)
      | Rook c fl =>
        simp only [erasePiece, Chessboard.rook_moves, sliding_moves_erase]
        exact optFilter_eq_of_pointwise _ _ _ (fun m => hpred c m)
      | Queen c =>
        simp only [erasePiece, Chessboard.queen_moves, sliding_moves_erase]
        exact optFilter_eq_of_pointwise _ _ _ (fun m => hpred c m)
      | King c fl =>
        simp only [erasePiece, king_moves_erase]
        cases hkm : st.king_moves frm c with
        | none => rfl
        | some ms =>
          simp only [Option.map_some']
          exact optFilter_eq_of_pointwise _ _ ms (fun m => hpred (Piece.King c fl).color m)

theorem any_legal_move_erase (st : Chessboard) (ps : List Position) :
    (eraseSt st).any_legal_move ps = st.any_legal_move ps := by
  induction ps with
  | nil => rfl
  | cons p rest ih =>
    unfold Chessboard.any_legal_move
    simp only [show (eraseSt st).board = eraseBoard st.board from rfl,
      show (eraseSt st).current_turn = st.current_turn from rfl,
      getCell_eraseBoard, get_legal_moves_erase, ih]
    cases hc : getCell st.board p.row p.col with
    | none => rfl
    | some piece => simp only [Option.map_some', erasePiece_color]

theorem is_checkmate_erase (st : Chessboard) :
    (eraseSt st).is_checkmate = st.is_checkmate := by
  unfold Chessboard.is_checkmate
  simp only [show (eraseSt st).current_turn = st.current_turn from rfl,
    is_in_check_erase, any_legal_move_erase]

theorem is_stalemate_erase (st : Chessboard) :
    (eraseSt st).is_stalemate = st.is_stalemate := by
  unfold Chessboard.is_stalemate
  simp only [show (eraseSt st).current_turn = st.current_turn from rfl,
    is_in_check_erase, any_legal_move_erase]

theorem make_move_erase (st : Chessboard) (mv : Move) :
    ((eraseSt st).make_move mv).map (fun r => (eraseSt r.1, r.2)) =
      (st.make_move mv).map (fun r => (eraseSt r.1, r.2)) := by
  unfold Chessboard.make_move
  rw [get_legal_moves_erase]
  cases hlm : st.get_legal_moves mv.fromPos with
  | none => rfl
  | some lms =>
    simp only []
    by_cases hany : (lms.any (fun lm =>
        decide (lm.fromPos = mv.fromPos ∧ lm.toPos = mv.toPos))) = true
    · have hcond : ¬((!(lms.any (fun lm =>
          decide (lm.fromPos = mv.fromPos ∧ lm.toPos = mv.toPos)))) = true) := by
        rw [hany]
        decide
      rw [if_neg hcond, if_neg hcond]
      have hh : ({ eraseSt st with move_history := histAfter (eraseSt st) mv }
            : Chessboard) =
          eraseSt { st with move_history := histAfter st mv } := rfl
      rw [hh]
      have h2 := make_move_unchecked_erase { st with move_history := histAfter st mv } mv
      cases h3 : Chessboard.make_move_unchecked
          { st with move_history := histAfter st mv } mv with
      | none =>
        rw [h3] at h2
        cases h4 : (eraseSt { st with move_history := histAfter st mv }).make_move_unchecked
            mv with
        | none => rfl
        | some x =>
          rw [h4] at h2
          exact Option.noConfusion h2
      | some st2 =>
        rw [h3] at h2
        cases h4 : (eraseSt { st with move_history := histAfter st mv }).make_move_unchecked
            mv with
        | none =>
          rw [h4] at h2
          exact Option.noConfusion h2
        | some st3 =>
          rw [h4] at h2
          simp only [Option.map_some', Option.some.injEq] at h2
          simp only [Option.map_some', h2]
    · have hf : (lms.any (fun lm =>
          decide (lm.fromPos = mv.fromPos ∧ lm.toPos = mv.toPos))) = false := by
        simpa using hany
      have hcond : ((!(lms.any (fun lm =>
          decide (lm.fromPos = mv.fromPos ∧ lm.toPos = mv.toPos)))) = true) := by
        rw [hf]
        decide
      rw [if_pos hcond, if_pos hcond]
      simp [eraseSt_idem]

/-- C9: no rule decision consults the vestigial boolean flag on King, Rook
and Pawn pieces.  For two states differing only in those flags,
`get_legal_moves`, `is_square_attacked`, `is_in_check`, `is_checkmate`,
`is_stalemate` and `make_move` (outcome, and resulting state up to flags)
agree. -/
theorem c9_flag_never_consulted (st1 st2 : Chessboard) (h : FlagEquiv st1 st2) :
    (∀ p, st1.get_legal_moves p = st2.get_legal_moves p) ∧
    (∀ p byc, st1.is_square_attacked p byc = st2.is_square_attacked p byc) ∧
    (∀ c, st1.is_in_check c = st2.is_in_check c) ∧
    (st1.is_checkmate = st2.is_checkmate) ∧
    (st1.is_stalemate = st2.is_stalemate) ∧
    (∀ mv, (st1.make_move mv).map (fun r => (eraseSt r.1, r.2)) =
           (st2.make_move mv).map (fun r => (eraseSt r.1, r.2))) := by
  unfold FlagEquiv at h
  refine ⟨fun p => ?_, fun p byc => ?_, fun c => ?_, ?_, ?_, fun mv => ?_⟩
  · rw [← get_legal_moves_erase st1 p, h, get_legal_moves_erase]
  · rw [← is_square_attacked_erase st1 p byc, h, is_square_attacked_erase]
  · rw [← is_in_check_erase st1 c, h, is_in_check_erase]
  · rw [← is_checkmate_erase st1, h, is_checkmate_erase]
  · rw [← is_stalemate_erase st1, h, is_stalemate_erase]
  · rw [← make_move_erase st1 mv, h, make_move_erase]

/-- The initial position with the vestigial flag set on the a1 rook. -/
def flaggedStart : Chessboard :=
  { Chessboard.new with
    board := setCell Chessboard.new.board 7 0 (some (.Rook .White true)) }

/-- C9 witness: the flagged and unflagged initial positions generate the same
legal moves for the a1 rook and agree on check detection. -/
theorem c9_flag_never_consulted_witness :
    Chessboard.new.get_legal_moves ⟨7, 0⟩ = flaggedStart.get_legal_moves ⟨7, 0⟩ ∧
    Chessboard.new.is_in_check .White = flaggedStart.is_in_check .White := by
  have h := c9_flag_never_consulted Chessboard.new flaggedStart
    (show eraseSt Chessboard.new = eraseSt flaggedStart by decide)
  exact ⟨h.1 ⟨7, 0⟩, h.2.2.1 .White⟩

/-- The grid really is 8 rows of 8 cells (`[[Square; 8]; 8]` in Rust). -/
def WFB (b : Board) : Prop :=
  b.length = 8 ∧ ∀ row ∈ b, row.length = 8

theorem wfb_new : WFB Chessboard.new.board := by
  constructor
  · decide
  · decide

theorem getCell_setCell_ne (b : Board) (r c r2 c2 : Nat) (v : Option Piece)
    (h : r2 ≠ r ∨ c2 ≠ c) :
    getCell (setCell b r c v) r2 c2 = getCell b r2 c2 := by
  unfold getCell setCell
  rcases h with h | h
  · rw [show (b.set r ((b.getD r []).set c v)).getD r2 [] = b.getD r2 [] by
      simp [List.getD, List.getElem?_set_ne (Ne.symm h)]]
  · by_cases hr : r2 = r
    · subst hr
      by_cases hlen : r2 < b.length
      · rw [show (b.set r2 ((b.getD r2 []).set c v)).getD r2 [] =
            (b.getD r2 []).set c v by
          simp [List.getD, List.getElem?_set_self hlen]]
        simp [List.getD, List.getElem?_set_ne (Ne.symm h)]
      · rw [show (b.set r2 ((b.getD r2 []).set c v)).getD r2 [] = b.getD r2 [] by
          simp [List.getD]
          rw [List.getElem?_eq_none (by simpa using Nat.le_of_not_lt hlen)]
          rw [List.getElem?_eq_none (by simpa using Nat.le_of_not_lt hlen)]]
    · rw [show (b.set r ((b.getD r []).set c v)).getD r2 [] = b.getD r2 [] by
        simp [List.getD, List.getElem?_set_ne (fun hx => hr hx.symm)]]

theorem getCell_setCell_self (b : Board) (r c : Nat) (v : Option Piece)
    (hwf : WFB b) (hr : r < 8) (hc : c < 8) :
    getCell (setCell b r c v) r c = v := by
  obtain ⟨hlen, hrows⟩ := hwf
  unfold getCell setCell
  have hrb : r < b.length := by omega
  rw [show (b.set r ((b.getD r []).set c v)).getD r [] = (b.getD r []).set c v by
    simp [List.getD, List.getElem?_set_self hrb]]
  have hcr2 : c < (b[r]?.getD ([] : List (Option Piece))).length := by
    have hmem : b[r]?.getD ([] : List (Option Piece)) ∈ b := by
      rw [List.getElem?_eq_getElem hrb]
      exact List.getElem_mem _
    rw [hrows _ hmem]
    exact hc
  simp [List.getD, List.getElem?_set_self hcr2]

theorem wfb_setCell (b : Board) (r c : Nat) (v : Option Piece) (hwf : WFB b) :
    WFB (setCell b r c v) := by
  obtain ⟨hlen, hrows⟩ := hwf
  constructor
  · simp [setCell, hlen]
  · intro row hrow
    unfold setCell at hrow
    by_cases hrb : r < b.length
    · rcases List.mem_or_eq_of_mem_set hrow with h | h
      · exact hrows _ h
      · subst h
        rw [List.length_set]
        refine hrows _ ?_
        rw [List.getD_eq_getElem?_getD, List.getElem?_eq_getElem hrb]
        exact List.getElem_mem _
    · rw [List.set_eq_of_length_le (Nat.le_of_not_lt hrb)] at hrow
      exact hrows _ hrow

theorem Color.opposite_ne (c : Color) : c.opposite ≠ c := by
  cases c <;> decide

theorem kingAt_eq_true_iff (x : Option Piece) (c : Color) :
    kingAt x c = true ↔ ∃ b, x = some (.King c b) := by
  cases x with
  | none => simp [kingAt]
  | some pc =>
    cases pc <;> simp [kingAt]

theorem rayFirst_oob (b : Board) (dr dc : Int) (fuel : Nat) (r cc : Int)
    (h : ¬(0 ≤ r ∧ r < 8 ∧ 0 ≤ cc ∧ cc < 8)) :
    rayFirst b dr dc fuel r cc = none := by
  cases fuel with
  | zero => rfl
  | succ f =>
    unfold rayFirst
    rw [if_neg h]

theorem rayFirst_hit (b : Board) (dr dc : Int) (fuel : Nat) (r cc : Int) (p : Piece)
    (h : 0 ≤ r ∧ r < 8 ∧ 0 ≤ cc ∧ cc < 8)
    (hcell : getCell b r.toNat cc.toNat = some p) :
    rayFirst b dr dc (fuel + 1) r cc = some p := by
  unfold rayFirst
  rw [if_pos h, hcell]

theorem rayFirst_step (b : Board) (dr dc : Int) (fuel : Nat) (r cc : Int)
    (h : 0 ≤ r ∧ r < 8 ∧ 0 ≤ cc ∧ cc < 8)
    (hcell : getCell b r.toNat cc.toNat = none) :
    rayFirst b dr dc (fuel + 1) r cc = rayFirst b dr dc fuel (r + dr) (cc + dc) := by
  conv_lhs => unfold rayFirst
  rw [if_pos h, hcell]

/-- A ray that starts strictly on one side of row `k` and moves away from it
never reads row `k`, so two boards agreeing off row `k` give the same ray
result. -/
theorem rayFirst_congr_away (b1 b2 : Board) (k : Nat)
    (hag : ∀ r c, r ≠ k → getCell b1 r c = getCell b2 r c) (dr dc : Int) :
    ∀ (fuel : Nat) (r cc : Int),
      ((0 < dr ∧ (k : Int) < r) ∨ (dr < 0 ∧ r < (k : Int))) →
      rayFirst b1 dr dc fuel r cc = rayFirst b2 dr dc fuel r cc := by
  intro fuel
  induction fuel with
  | zero => intro r cc _; rfl
  | succ f ih =>
    intro r cc hside
    by_cases hb : 0 ≤ r ∧ r < 8 ∧ 0 ≤ cc ∧ cc < 8
    · have hne : r.toNat ≠ k := by
        rcases hside with ⟨_, hk⟩ | ⟨_, hk⟩ <;> omega
      unfold rayFirst
      rw [if_pos hb, if_pos hb, hag r.toNat cc.toNat hne]
      cases getCell b2 r.toNat cc.toNat with
      | some p => rfl
      | none =>
        refine ih (r + dr) (cc + dc) ?_
        rcases hside with ⟨hdr, hk⟩ | ⟨hdr, hk⟩
        · exact Or.inl ⟨hdr, by omega⟩
        · exact Or.inr ⟨hdr, by omega⟩
    · rw [rayFirst_oob _ _ _ _ _ _ hb, rayFirst_oob _ _ _ _ _ _ hb]

theorem find?_unique {α : Type} (p : α → Bool) (l : List α) (a : α)
    (ha : a ∈ l) (hu : ∀ x ∈ l, (p x = true ↔ x = a)) : l.find? p = some a := by
  induction l with
  | nil => exact absurd ha (List.not_mem_nil a)
  | cons x rest ih =>
    rw [List.find?]
    cases hpx : p x with
    | true =>
      rw [(hu x (List.mem_cons_self x rest)).mp hpx]
    | false =>
      refine ih ?_ ?_
      · rcases List.mem_cons.mp ha with h | h
        · subst h
          rw [(hu a (List.mem_cons_self a rest)).mpr rfl] at hpx
          exact Bool.noConfusion hpx
        · exact h
      · intro x2 hx2
        exact hu x2 (List.mem_cons_of_mem x hx2)

theorem find?_isSome_of_mem {α : Type} (p : α → Bool) (l : List α) (a : α)
    (ha : a ∈ l) (hp : p a = true) : (l.find? p).isSome = true := by
  induction l with
  | nil => exact absurd ha (List.not_mem_nil a)
  | cons x rest ih =>
    rw [List.find?]
    cases hpx : p x with
    | true => rfl
    | false =>
      refine ih ?_
      rcases List.mem_cons.mp ha with h | h
      · subst h
        rw [hp] at hpx
        exact Bool.noConfusion hpx
      · exact h

/-- When the filter predicate is defined (`some`) on every element,
`optFilter` succeeds and returns the plain filter by the predicate's value. -/
theorem optFilter_eq_some_of_forall {α : Type} (p : α → Option Bool) (l : List α)
    (h : ∀ a ∈ l, (p a).isSome = true) :
    optFilter p l = some (l.filter (fun a => (p a).getD false)) := by
  induction l with
  | nil => rfl
  | cons a rest ih =>
    rw [optFilter]
    cases hpa : p a with
    | none =>
      have := h a (List.mem_cons_self a rest)
      rw [hpa] at this
      exact Bool.noConfusion this
    | some keep =>
      rw [ih (fun x hx => h x (List.mem_cons_of_mem a hx))]
      rw [List.filter_cons]
      cases keep with
      | true => simp [hpa]
      | false => simp [hpa]

theorem kingAt_false_of_color (p : Piece) (byc : Color) (h : p.color ≠ byc) :
    kingAt (some p) byc = false := by
  cases p with
  | King kc b =>
    simp only [kingAt, Piece.color] at h ⊢
    simpa using h
  | Queen c => rfl
  | Rook c b => rfl
  | Bishop c => rfl
  | Knight c => rfl
  | Pawn c b => rfl

/-- After white kingside castling, g1 is still unattacked: the rook now on f1
blocks the only newly opened horizontal ray, h1 is empty up to the board
edge, and every other read of the attack detector is below the back rank,
where the two boards agree. -/
theorem attacked_g1_false (stA stB : Chessboard)
    (hag : ∀ r c2, r ≠ 7 → getCell stA.board r c2 = getCell stB.board r c2)
    (pc5 : Piece) (h5 : getCell stA.board 7 5 = some pc5) (h5c : pc5.color ≠ .Black)
    (h7 : getCell stA.board 7 7 = none)
    (hatt : stB.is_square_attacked ⟨7, 6⟩ .Black = false) :
    stA.is_square_attacked ⟨7, 6⟩ .Black = false := by
  unfold Chessboard.is_square_attacked at hatt ⊢
  simp only [knightOffsets, kingOffsets, slidingDirections, List.any_cons, List.any_nil,
    Bool.or_eq_false_iff] at hatt ⊢
  norm_num at hatt ⊢
  simp only [Int.reduceToNat] at hatt ⊢
  obtain ⟨⟨⟨⟨k1, k2, k3⟩, p1, p2⟩, s1, s2, s3, s4, s5, s6, s7, s8⟩, g1, g2, g3, g4, g5⟩ :=
    hatt
  refine ⟨⟨⟨⟨?_, ?_, ?_⟩, ?_, ?_⟩, ?_, ?_, ?_, ?_, ?_, ?_, ?_, ?_⟩, ?_, ?_, ?_, ?_, ?_⟩
  · rw [hag 5 5 (by omega)]; exact k1
  · rw [hag 5 7 (by omega)]; exact k2
  · rw [hag 6 4 (by omega)]; exact k3
  · rw [hag 6 5 (by omega)]; exact p1
  · rw [hag 6 7 (by omega)]; exact p2
  · rw [rayFirst_congr_away stA.board stB.board 7 hag (-1) (-1) 8 6 5
      (Or.inr ⟨by norm_num, by norm_num⟩)]
    exact s1
  · rw [rayFirst_congr_away stA.board stB.board 7 hag (-1) 1 8 6 7
      (Or.inr ⟨by norm_num, by norm_num⟩)]
    exact s2
  · rw [rayFirst_oob stA.board 1 (-1) 8 8 5 (by norm_num)]
    rfl
  · rw [rayFirst_oob stA.board 1 1 8 8 7 (by norm_num)]
    rfl
  · rw [rayFirst_congr_away stA.board stB.board 7 hag (-1) 0 8 6 6
      (Or.inr ⟨by norm_num, by norm_num⟩)]
    exact s5
  · rw [rayFirst_oob stA.board 1 0 8 8 6 (by norm_num)]
    rfl
  · rw [rayFirst_hit stA.board 0 (-1) 7 7 5 pc5 (by norm_num) (by simpa using h5)]
    simp [slideHit, h5c]
  · rw [rayFirst_step stA.board 0 1 7 7 7 (by norm_num) (by simpa using h7)]
    rw [rayFirst_oob stA.board 0 1 7 (7 + 0) (7 + 1) (by norm_num)]
    rfl
  · rw [hag 6 5 (by omega)]; exact g1
  · rw [hag 6 6 (by omega)]; exact g2
  · rw [hag 6 7 (by omega)]; exact g3
  · rw [h5]
    exact kingAt_false_of_color pc5 .Black h5c
  · rw [h7]
    rfl

/-- After white queenside castling, c1 is still unattacked. -/
theorem attacked_c1_false (stA stB : Chessboard)
    (hag : ∀ r c2, r ≠ 7 → getCell stA.board r c2 = getCell stB.board r c2)
    (pc3 : Piece) (h3 : getCell stA.board 7 3 = some pc3) (h3c : pc3.color ≠ .Black)
    (hb1 : getCell stA.board 7 1 = none) (hb0 : getCell stA.board 7 0 = none)
    (hatt : stB.is_square_attacked ⟨7, 2⟩ .Black = false) :
    stA.is_square_attacked ⟨7, 2⟩ .Black = false := by
  unfold Chessboard.is_square_attacked at hatt ⊢
  simp only [knightOffsets, kingOffsets, slidingDirections, List.any_cons, List.any_nil,
    Bool.or_eq_false_iff] at hatt ⊢
  norm_num at hatt ⊢
  simp only [Int.reduceToNat] at hatt ⊢
  obtain ⟨⟨⟨⟨k1, k2, k3, k4⟩, p1, p2⟩, s1, s2, s3, s4, s5, s6, s7, s8⟩,
    g1, g2, g3, g4, g5⟩ := hatt
  refine ⟨⟨⟨⟨?_, ?_, ?_, ?_⟩, ?_, ?_⟩, ?_, ?_, ?_, ?_, ?_, ?_, ?_, ?_⟩,
    ?_, ?_, ?_, ?_, ?_⟩
  · rw [hag 5 1 (by omega)]; exact k1
  · rw [hag 5 3 (by omega)]; exact k2
  · rw [hag 6 0 (by omega)]; exact k3
  · rw [hag 6 4 (by omega)]; exact k4
  · rw [hag 6 1 (by omega)]; exact p1
  · rw [hag 6 3 (by omega)]; exact p2
  · rw [rayFirst_congr_away stA.board stB.board 7 hag (-1) (-1) 8 6 1
      (Or.inr ⟨by norm_num, by norm_num⟩)]
    exact s1
  · rw [rayFirst_congr_away stA.board stB.board 7 hag (-1) 1 8 6 3
      (Or.inr ⟨by norm_num, by norm_num⟩)]
    exact s2
  · rw [rayFirst_oob stA.board 1 (-1) 8 8 1 (by norm_num)]
    rfl
  · rw [rayFirst_oob stA.board 1 1 8 8 3 (by norm_num)]
    rfl
  · rw [rayFirst_congr_away stA.board stB.board 7 hag (-1) 0 8 6 2
      (Or.inr ⟨by norm_num, by norm_num⟩)]
    exact s5
  · rw [rayFirst_oob stA.board 1 0 8 8 2 (by norm_num)]
    rfl
  · rw [rayFirst_step stA.board 0 (-1) 7 7 1 (by norm_num) (by simpa using hb1)]
    rw [rayFirst_step stA.board 0 (-1) 6 (7 + 0) (1 + -1) (by norm_num)
      (by simpa using hb0)]
    rw [rayFirst_oob stA.board 0 (-1) 6 (7 + 0 + 0) (1 + -1 + -1) (by norm_num)]
    rfl
  · rw [rayFirst_hit stA.board 0 1 7 7 3 pc3 (by norm_num) (by simpa using h3)]
    simp [slideHit, h3c]
  · rw [hag 6 1 (by omega)]; exact g1
  · rw [hag 6 2 (by omega)]; exact g2
  · rw [hag 6 3 (by omega)]; exact g3
  · rw [hb1]
    rfl
  · rw [h3]
    exact kingAt_false_of_color pc3 .Black h3c

/-- After black kingside castling, g8 is still unattacked. -/
theorem attacked_g8_false (stA stB : Chessboard)
    (hag : ∀ r c2, r ≠ 0 → getCell stA.board r c2 = getCell stB.board r c2)
    (pc5 : Piece) (h5 : getCell stA.board 0 5 = some pc5) (h5c : pc5.color ≠ .White)
    (h7 : getCell stA.board 0 7 = none)
    (hatt : stB.is_square_attacked ⟨0, 6⟩ .White = false) :
    stA.is_square_attacked ⟨0, 6⟩ .White = false := by
  unfold Chessboard.is_square_attacked at hatt ⊢
  simp only [knightOffsets, kingOffsets, slidingDirections, List.any_cons, List.any_nil,
    Bool.or_eq_false_iff] at hatt ⊢
  norm_num at hatt ⊢
  simp only [Int.reduceToNat] at hatt ⊢
  obtain ⟨⟨⟨⟨k1, k2, k3⟩, p1, p2⟩, s1, s2, s3, s4, s5, s6, s7, s8⟩,
    g1, g2, g3, g4, g5⟩ := hatt
  refine ⟨⟨⟨⟨?_, ?_, ?_⟩, ?_, ?_⟩, ?_, ?_, ?_, ?_, ?_, ?_, ?_, ?_⟩,
    ?_, ?_, ?_, ?_, ?_⟩
  · rw [hag 1 4 (by omega)]; exact k1
  · rw [hag 2 5 (by omega)]; exact k2
  · rw [hag 2 7 (by omega)]; exact k3
  · rw [hag 1 5 (by omega)]; exact p1
  · rw [hag 1 7 (by omega)]; exact p2
  · rw [rayFirst_oob stA.board (-1) (-1) 8 (-1) 5 (by norm_num)]
    rfl
  · rw [rayFirst_oob stA.board (-1) 1 8 (-1) 7 (by norm_num)]
    rfl
  · rw [rayFirst_congr_away stA.board stB.board 0 hag 1 (-1) 8 1 5
      (Or.inl ⟨by norm_num, by norm_num⟩)]
    exact s3
  · rw [rayFirst_congr_away stA.board stB.board 0 hag 1 1 8 1 7
      (Or.inl ⟨by norm_num, by norm_num⟩)]
    exact s4
  · rw [rayFirst_oob stA.board (-1) 0 8 (-1) 6 (by norm_num)]
    rfl
  · rw [rayFirst_congr_away stA.board stB.board 0 hag 1 0 8 1 6
      (Or.inl ⟨by norm_num, by norm_num⟩)]
    exact s6
  · rw [rayFirst_hit stA.board 0 (-1) 7 0 5 pc5 (by norm_num) (by simpa using h5)]
    simp [slideHit, h5c]
  · rw [rayFirst_step stA.board 0 1 7 0 7 (by norm_num) (by simpa using h7)]
    rw [rayFirst_oob stA.board 0 1 7 (0 + 0) (7 + 1) (by norm_num)]
    rfl
  · rw [h5]
    exact kingAt_false_of_color pc5 .White h5c
  · rw [h7]
    rfl
  · rw [hag 1 5 (by omega)]; exact g3
  · rw [hag 1 6 (by omega)]; exact g4
  · rw [hag 1 7 (by omega)]; exact g5

/-- After black queenside castling, c8 is still unattacked. -/
theorem attacked_c8_false (stA stB : Chessboard)
    (hag : ∀ r c2, r ≠ 0 → getCell stA.board r c2 = getCell stB.board r c2)
    (pc3 : Piece) (h3 : getCell stA.board 0 3 = some pc3) (h3c : pc3.color ≠ .White)
    (hb1 : getCell stA.board 0 1 = none) (hb0 : getCell stA.board 0 0 = none)
    (hatt : stB.is_square_attacked ⟨0, 2⟩ .White = false) :
    stA.is_square_attacked ⟨0, 2⟩ .White = false := by
  unfold Chessboard.is_square_attacked at hatt ⊢
  simp only [knightOffsets, kingOffsets, slidingDirections, List.any_cons, List.any_nil,
    Bool.or_eq_false_iff] at hatt ⊢
  norm_num at hatt ⊢
  simp only [Int.reduceToNat] at hatt ⊢
  obtain ⟨⟨⟨⟨k1, k2, k3, k4⟩, p1, p2⟩, s1, s2, s3, s4, s5, s6, s7, s8⟩,
    g1, g2, g3, g4, g5⟩ := hatt
  refine ⟨⟨⟨⟨?_, ?_, ?_, ?_⟩, ?_, ?_⟩, ?_, ?_, ?_, ?_, ?_, ?_, ?_, ?_⟩,
    ?_, ?_, ?_, ?_, ?_⟩
  · rw [hag 1 0 (by omega)]; exact k1
  · rw [hag 1 4 (by omega)]; exact k2
  · rw [hag 2 1 (by omega)]; exact k3
  · rw [hag 2 3 (by omega)]; exact k4
  · rw [hag 1 1 (by omega)]; exact p1
  · rw [hag 1 3 (by omega)]; exact p2
  · rw [rayFirst_oob stA.board (-1) (-1) 8 (-1) 1 (by norm_num)]
    rfl
  · rw [rayFirst_oob stA.board (-1) 1 8 (-1) 3 (by norm_num)]
    rfl
  · rw [rayFirst_congr_away stA.board stB.board 0 hag 1 (-1) 8 1 1
      (Or.inl ⟨by norm_num, by norm_num⟩)]
    exact s3
  · rw [rayFirst_congr_away stA.board stB.board 0 hag 1 1 8 1 3
      (Or.inl ⟨by norm_num, by norm_num⟩)]
    exact s4
  · rw [rayFirst_oob stA.board (-1) 0 8 (-1) 2 (by norm_num)]
    rfl
  · rw [rayFirst_congr_away stA.board stB.board 0 hag 1 0 8 1 2
      (Or.inl ⟨by norm_num, by norm_num⟩)]
    exact s6
  · rw [rayFirst_step stA.board 0 (-1) 7 0 1 (by norm_num) (by simpa using hb1)]
    rw [rayFirst_step stA.board 0 (-1) 6 (0 + 0) (1 + -1) (by norm_num)
      (by simpa using hb0)]
    rw [rayFirst_oob stA.board 0 (-1) 6 (0 + 0 + 0) (1 + -1 + -1) (by norm_num)]
    rfl
  · rw [rayFirst_hit stA.board 0 1 7 0 3 pc3 (by norm_num) (by simpa using h3)]
    simp [slideHit, h3c]
  · rw [hb1]
    rfl
  · rw [h3]
    exact kingAt_false_of_color pc3 .White h3c
  · rw [hag 1 1 (by omega)]; exact g3
  · rw [hag 1 2 (by omega)]; exact g4
  · rw [hag 1 3 (by omega)]; exact g5

/-- The back rank of a color (row 7 for White, row 0 for Black). -/
def backRank : Color → Nat
  | .White => 7
  | .Black => 0

def kingsideRight (st : Chessboard) (c : Color) : Bool :=
  match c with
  | .White => st.castling_rights.white_kingside
  | .Black => st.castling_rights.black_kingside

def queensideRight (st : Chessboard) (c : Color) : Bool :=
  match c with
  | .White => st.castling_rights.white_queenside
  | .Black => st.castling_rights.black_queenside

theorem mem_allPositions (q : Position) :
    q ∈ allPositions ↔ q.row < 8 ∧ q.col < 8 := by
  unfold allPositions
  rw [List.mem_flatten]
  constructor
  · rintro ⟨l, hl, hq⟩
    obtain ⟨r, hr, rfl⟩ := List.mem_map.mp hl
    obtain ⟨c2, hc2, rfl⟩ := List.mem_map.mp hq
    exact ⟨List.mem_range.mp hr, List.mem_range.mp hc2⟩
  · rintro ⟨h1, h2⟩
    refine ⟨(List.range 8).map (fun c2 => (⟨q.row, c2⟩ : Position)), ?_, ?_⟩
    · exact List.mem_map.mpr ⟨q.row, List.mem_range.mpr h1, rfl⟩
    · exact List.mem_map.mpr ⟨q.col, List.mem_range.mpr h2, rfl⟩

/-- A unique king position determines `find_king`. -/
theorem find_king_unique (st : Chessboard) (c : Color) (r0 c0 : Nat)
    (hr0 : r0 < 8) (hc0 : c0 < 8)
    (hu : ∀ r c2, r < 8 → c2 < 8 →
      (kingAt (getCell st.board r c2) c = true ↔ (r = r0 ∧ c2 = c0))) :
    st.find_king c = some ⟨r0, c0⟩ := by
  refine find?_unique _ _ _ ((mem_allPositions _).mpr ⟨hr0, hc0⟩) ?_
  intro q hq
  obtain ⟨h1, h2⟩ := (mem_allPositions q).mp hq
  rw [hu q.row q.col h1 h2]
  constructor
  · rintro ⟨ha, hb⟩
    cases q
    simp only at ha hb
    rw [ha, hb]
  · rintro rfl
    exact ⟨rfl, rfl⟩

/-- `find_king` succeeds as soon as some king of the color is on the board. -/
theorem find_king_isSome (st : Chessboard) (c : Color) (r0 c0 : Nat) (b2 : Bool)
    (hr0 : r0 < 8) (hc0 : c0 < 8)
    (hcell : getCell st.board r0 c0 = some (.King c b2)) :
    (st.find_king c).isSome = true := by
  refine find?_isSome_of_mem _ _ (⟨r0, c0⟩ : Position)
    ((mem_allPositions _).mpr ⟨hr0, hc0⟩) ?_
  simp only [hcell, kingAt, decide_eq_true_eq]

/-- Membership in `offset_moves` comes from one of the offsets. -/
theorem mem_offset_moves (st : Chessboard) (frm : Position) (c : Color)
    (offs : List (Int × Int)) (m : Move) (h : m ∈ st.offset_moves frm c offs) :
    ∃ od ∈ offs,
      (0 ≤ (frm.row : Int) + od.1 ∧ (frm.row : Int) + od.1 < 8 ∧
       0 ≤ (frm.col : Int) + od.2 ∧ (frm.col : Int) + od.2 < 8) ∧
      m = ⟨frm, ⟨((frm.row : Int) + od.1).toNat, ((frm.col : Int) + od.2).toNat⟩,
        none⟩ := by
  unfold Chessboard.offset_moves at h
  obtain ⟨od, hod, hm⟩ := List.mem_filterMap.mp h
  refine ⟨od, hod, ?_⟩
  by_cases hb : (0 ≤ (frm.row : Int) + od.1 ∧ (frm.row : Int) + od.1 < 8 ∧
      0 ≤ (frm.col : Int) + od.2 ∧ (frm.col : Int) + od.2 < 8)
  · rw [if_pos hb] at hm
    refine ⟨hb, ?_⟩
    by_cases hc2 : st.can_move_to
        ⟨((frm.row : Int) + od.1).toNat, ((frm.col : Int) + od.2).toNat⟩ c = true
    · rw [if_pos hc2] at hm
      injection hm with hm2
      exact hm2.symm
    · rw [if_neg hc2] at hm
      exact Option.noConfusion hm
  · rw [if_neg hb] at hm
    exact Option.noConfusion hm

/-- The board after kingside castling. -/
def castledBoardK (b : Board) (back : Nat) (rook king : Piece) : Board :=
  setCell (setCell (setCell (setCell (setCell b back 4 none) back 7 none)
    back 5 (some rook)) back 6 none) back 6 (some king)

/-- The board after queenside castling. -/
def castledBoardQ (b : Board) (back : Nat) (rook king : Piece) : Board :=
  setCell (setCell (setCell (setCell (setCell b back 4 none) back 0 none)
    back 3 (some rook)) back 2 none) back 2 (some king)

/-- Explicit result of `make_move_unchecked` on the kingside castling move. -/
theorem castle_apply_K (st : Chessboard) (back : Nat) (c : Color) (fl flr : Bool)
    (hk : getCell st.board back 4 = some (.King c fl))
    (hr : getCell st.board back 7 = some (.Rook c flr)) :
    st.make_move_unchecked ⟨⟨back, 4⟩, ⟨back, 6⟩, none⟩ = some
      { board := castledBoardK st.board back (.Rook c flr) (.King c fl)
        current_turn := st.current_turn.opposite
        castling_rights := rightsAfter st.castling_rights (.King c fl)
          ⟨⟨back, 4⟩, ⟨back, 6⟩, none⟩
        en_passant_target := none
        move_history := st.move_history } := by
  unfold Chessboard.make_move_unchecked
  simp only [hk, Option.some_bind]
  unfold relocateCastle
  have hne : getCell (setCell st.board back 4 none) back 7 = some (.Rook c flr) := by
    rw [getCell_setCell_ne st.board back 4 back 7 none (Or.inr (by omega))]
    exact hr
  simp only [hne]
  norm_num
  exact ⟨rfl, rfl⟩

/-- Explicit result of `make_move_unchecked` on the queenside castling move. -/
theorem castle_apply_Q (st : Chessboard) (back : Nat) (c : Color) (fl flr : Bool)
    (hk : getCell st.board back 4 = some (.King c fl))
    (hr : getCell st.board back 0 = some (.Rook c flr)) :
    st.make_move_unchecked ⟨⟨back, 4⟩, ⟨back, 2⟩, none⟩ = some
      { board := castledBoardQ st.board back (.Rook c flr) (.King c fl)
        current_turn := st.current_turn.opposite
        castling_rights := rightsAfter st.castling_rights (.King c fl)
          ⟨⟨back, 4⟩, ⟨back, 2⟩, none⟩
        en_passant_target := none
        move_history := st.move_history } := by
  unfold Chessboard.make_move_unchecked
  simp only [hk, Option.some_bind]
  unfold relocateCastle
  have hne : getCell (setCell st.board back 4 none) back 0 = some (.Rook c flr) := by
    rw [getCell_setCell_ne st.board back 4 back 0 none (Or.inr (by omega))]
    exact hr
  simp only [hne]
  norm_num
  exact ⟨rfl, rfl⟩

/-- Explicit result of `make_move_unchecked` on an ordinary (non-castling)
king step. -/
theorem king_step_apply (st : Chessboard) (frm q : Position) (c : Color) (fl : Bool)
    (hk : getCell st.board frm.row frm.col = some (.King c fl))
    (hnot2 : ((frm.col : Int) - (q.col : Int)).natAbs ≠ 2) :
    st.make_move_unchecked ⟨frm, q, none⟩ = some
      { board := setCell (setCell (setCell st.board frm.row frm.col none)
          q.row q.col none) q.row q.col (some (.King c fl))
        current_turn := st.current_turn.opposite
        castling_rights := rightsAfter st.castling_rights (.King c fl) ⟨frm, q, none⟩
        en_passant_target := none
        move_history := st.move_history } := by
  unfold Chessboard.make_move_unchecked
  simp only [hk, Option.some_bind]
  unfold relocateCastle
  simp only [if_neg hnot2]
  unfold finishBoard
  rfl

theorem in_check_false_of (st' : Chessboard) (c : Color) (kp : Position)
    (hfk : st'.find_king c = some kp)
    (hatt : st'.is_square_attacked kp c.opposite = false) :
    (st'.is_in_check c).map (fun b => !b) = some true := by
  unfold Chessboard.is_in_check
  rw [hfk]
  simp [hatt]

theorem in_check_isSome_of (st' : Chessboard) (c : Color)
    (hfk : (st'.find_king c).isSome = true) :
    ((st'.is_in_check c).map (fun b => !b)).isSome = true := by
  unfold Chessboard.is_in_check
  cases h : st'.find_king c with
  | none => rw [h] at hfk; exact Bool.noConfusion hfk
  | some kp => rfl

theorem castledK_cells (b : Board) (back : Nat) (rook king : Piece)
    (hwf : WFB b) (hback : back < 8) :
    getCell (castledBoardK b back rook king) back 4 = none ∧
    getCell (castledBoardK b back rook king) back 5 = some rook ∧
    getCell (castledBoardK b back rook king) back 6 = some king ∧
    getCell (castledBoardK b back rook king) back 7 = none ∧
    (∀ r c2, r ≠ back →
      getCell (castledBoardK b back rook king) r c2 = getCell b r c2) ∧
    (∀ c2, c2 ≠ 4 → c2 ≠ 5 → c2 ≠ 6 → c2 ≠ 7 →
      getCell (castledBoardK b back rook king) back c2 = getCell b back c2) := by
  have w1 : WFB (setCell b back 4 none) := wfb_setCell _ _ _ _ hwf
  have w2 : WFB (setCell (setCell b back 4 none) back 7 none) := wfb_setCell _ _ _ _ w1
  have w3 : WFB (setCell (setCell (setCell b back 4 none) back 7 none) back 5
      (some rook)) := wfb_setCell _ _ _ _ w2
  have w4 : WFB (setCell (setCell (setCell (setCell b back 4 none) back 7 none) back 5
      (some rook)) back 6 none) := wfb_setCell _ _ _ _ w3
  unfold castledBoardK
  refine ⟨?_, ?_, ?_, ?_, ?_, ?_⟩
  · rw [getCell_setCell_ne _ _ _ _ _ _ (Or.inr (by omega)),
      getCell_setCell_ne _ _ _ _ _ _ (Or.inr (by omega)),
      getCell_setCell_ne _ _ _ _ _ _ (Or.inr (by omega)),
      getCell_setCell_ne _ _ _ _ _ _ (Or.inr (by omega)),
      getCell_setCell_self b back 4 none hwf hback (by omega)]
  · rw [getCell_setCell_ne _ _ _ _ _ _ (Or.inr (by omega)),
      getCell_setCell_ne _ _ _ _ _ _ (Or.inr (by omega)),
      getCell_setCell_self _ back 5 (some rook) w2 hback (by omega)]
  · rw [getCell_setCell_self _ back 6 (some king) w4 hback (by omega)]
  · rw [getCell_setCell_ne _ _ _ _ _ _ (Or.inr (by omega)),
      getCell_setCell_ne _ _ _ _ _ _ (Or.inr (by omega)),
      getCell_setCell_ne _ _ _ _ _ _ (Or.inr (by omega)),
      getCell_setCell_self _ back 7 none w1 hback (by omega)]
  · intro r c2 hr
    rw [getCell_setCell_ne _ _ _ _ _ _ (Or.inl hr),
      getCell_setCell_ne _ _ _ _ _ _ (Or.inl hr),
      getCell_setCell_ne _ _ _ _ _ _ (Or.inl hr),
      getCell_setCell_ne _ _ _ _ _ _ (Or.inl hr),
      getCell_setCell_ne _ _ _ _ _ _ (Or.inl hr)]
  · intro c2 h4 h5 h6 h7
    rw [getCell_setCell_ne _ _ _ _ _ _ (Or.inr h6),
      getCell_setCell_ne _ _ _ _ _ _ (Or.inr h6),
      getCell_setCell_ne _ _ _ _ _ _ (Or.inr h5),
      getCell_setCell_ne _ _ _ _ _ _ (Or.inr h7),
      getCell_setCell_ne _ _ _ _ _ _ (Or.inr h4)]

theorem castledQ_cells (b : Board) (back : Nat) (rook king : Piece)
    (hwf : WFB b) (hback : back < 8) :
    getCell (castledBoardQ b back rook king) back 4 = none ∧
    getCell (castledBoardQ b back rook king) back 0 = none ∧
    getCell (castledBoardQ b back rook king) back 3 = some rook ∧
    getCell (castledBoardQ b back rook king) back 2 = some king ∧
    (∀ r c2, r ≠ back →
      getCell (castledBoardQ b back rook king) r c2 = getCell b r c2) ∧
    (∀ c2, c2 ≠ 0 → c2 ≠ 2 → c2 ≠ 3 → c2 ≠ 4 →
      getCell (castledBoardQ b back rook king) back c2 = getCell b back c2) := by
  have w1 : WFB (setCell b back 4 none) := wfb_setCell _ _ _ _ hwf
  have w2 : WFB (setCell (setCell b back 4 none) back 0 none) := wfb_setCell _ _ _ _ w1
  have w3 : WFB (setCell (setCell (setCell b back 4 none) back 0 none) back 3
      (some rook)) := wfb_setCell _ _ _ _ w2
  have w4 : WFB (setCell (setCell (setCell (setCell b back 4 none) back 0 none) back 3
      (some rook)) back 2 none) := wfb_setCell _ _ _ _ w3
  unfold castledBoardQ
  refine ⟨?_, ?_, ?_, ?_, ?_, ?_⟩
  · rw [getCell_setCell_ne _ _ _ _ _ _ (Or.inr (by omega)),
      getCell_setCell_ne _ _ _ _ _ _ (Or.inr (by omega)),
      getCell_setCell_ne _ _ _ _ _ _ (Or.inr (by omega)),
      getCell_setCell_ne _ _ _ _ _ _ (Or.inr (by omega)),
      getCell_setCell_self b back 4 none hwf hback (by omega)]
  · rw [getCell_setCell_ne _ _ _ _ _ _ (Or.inr (by omega)),
      getCell_setCell_ne _ _ _ _ _ _ (Or.inr (by omega)),
      getCell_setCell_ne _ _ _ _ _ _ (Or.inr (by omega)),
      getCell_setCell_self _ back 0 none w1 hback (by omega)]
  · rw [getCell_setCell_ne _ _ _ _ _ _ (Or.inr (by omega)),
      getCell_setCell_ne _ _ _ _ _ _ (Or.inr (by omega)),
      getCell_setCell_self _ back 3 (some rook) w2 hback (by omega)]
  · rw [getCell_setCell_self _ back 2 (some king) w4 hback (by omega)]
  · intro r c2 hr
    rw [getCell_setCell_ne _ _ _ _ _ _ (Or.inl hr),
      getCell_setCell_ne _ _ _ _ _ _ (Or.inl hr),
      getCell_setCell_ne _ _ _ _ _ _ (Or.inl hr),
      getCell_setCell_ne _ _ _ _ _ _ (Or.inl hr),
      getCell_setCell_ne _ _ _ _ _ _ (Or.inl hr)]
  · intro c2 h0 h2 h3 h4
    rw [getCell_setCell_ne _ _ _ _ _ _ (Or.inr h2),
      getCell_setCell_ne _ _ _ _ _ _ (Or.inr h2),
      getCell_setCell_ne _ _ _ _ _ _ (Or.inr h3),
      getCell_setCell_ne _ _ _ _ _ _ (Or.inr h0),
      getCell_setCell_ne _ _ _ _ _ _ (Or.inr h4)]

theorem castle_apply_K_ex (st : Chessboard) (back : Nat) (c : Color) (fl flr : Bool)
    (hk : getCell st.board back 4 = some (.King c fl))
    (hr : getCell st.board back 7 = some (.Rook c flr)) :
    ∃ st', st.make_move_unchecked ⟨⟨back, 4⟩, ⟨back, 6⟩, none⟩ = some st' ∧
      st'.board = castledBoardK st.board back (.Rook c flr) (.King c fl) ∧
      st'.current_turn = st.current_turn.opposite ∧
      st'.castling_rights = rightsAfter st.castling_rights (.King c fl)
        ⟨⟨back, 4⟩, ⟨back, 6⟩, none⟩ ∧
      st'.en_passant_target = none ∧ st'.move_history = st.move_history :=
  ⟨_, castle_apply_K st back c fl flr hk hr, rfl, rfl, rfl, rfl, rfl⟩

theorem castle_apply_Q_ex (st : Chessboard) (back : Nat) (c : Color) (fl flr : Bool)
    (hk : getCell st.board back 4 = some (.King c fl))
    (hr : getCell st.board back 0 = some (.Rook c flr)) :
    ∃ st', st.make_move_unchecked ⟨⟨back, 4⟩, ⟨back, 2⟩, none⟩ = some st' ∧
      st'.board = castledBoardQ st.board back (.Rook c flr) (.King c fl) ∧
      st'.current_turn = st.current_turn.opposite ∧
      st'.castling_rights = rightsAfter st.castling_rights (.King c fl)
        ⟨⟨back, 4⟩, ⟨back, 2⟩, none⟩ ∧
      st'.en_passant_target = none ∧ st'.move_history = st.move_history :=
  ⟨_, castle_apply_Q st back c fl flr hk hr, rfl, rfl, rfl, rfl, rfl⟩

theorem king_step_apply_ex (st : Chessboard) (frm q : Position) (c : Color) (fl : Bool)
    (hk : getCell st.board frm.row frm.col = some (.King c fl))
    (hnot2 : ((frm.col : Int) - (q.col : Int)).natAbs ≠ 2) :
    ∃ st', st.make_move_unchecked ⟨frm, q, none⟩ = some st' ∧
      st'.board = setCell (setCell (setCell st.board frm.row frm.col none)
        q.row q.col none) q.row q.col (some (.King c fl)) :=
  ⟨_, king_step_apply st frm q c fl hk hnot2, rfl⟩

/-- Backboard row bound for each color. -/
theorem backRank_lt (c : Color) : backRank c < 8 := by
  cases c <;> decide

/-- The legality predicate accepts the kingside castling candidate: after the
simulated castling the king sits on the castled square, which the attack
lemmas show is still safe. -/
theorem castled_pred_true_K (st : Chessboard) (c : Color) (fl flr : Bool)
    (hwf : WFB st.board)
    (hking : ∀ r c2, r < 8 → c2 < 8 →
      (kingAt (getCell st.board r c2) c = true ↔ (r = backRank c ∧ c2 = 4)))
    (hk : getCell st.board (backRank c) 4 = some (.King c fl))
    (hr : getCell st.board (backRank c) 7 = some (.Rook c flr))
    (hatt6 : st.is_square_attacked ⟨backRank c, 6⟩ c.opposite = false) :
    (st.make_move_unchecked ⟨⟨backRank c, 4⟩, ⟨backRank c, 6⟩, none⟩).bind
      (fun tb => (tb.is_in_check c).map (fun b => !b)) = some true := by
  obtain ⟨st', hmmu, hboard, _, _, _, _⟩ :=
    castle_apply_K_ex st (backRank c) c fl flr hk hr
  obtain ⟨c4, c5, c6, c7, hoff, hrow⟩ := castledK_cells st.board (backRank c)
    (.Rook c flr) (.King c fl) hwf (backRank_lt c)
  rw [hmmu, Option.some_bind]
  refine in_check_false_of st' c ⟨backRank c, 6⟩ ?_ ?_
  · refine find_king_unique st' c (backRank c) 6 (backRank_lt c) (by omega) ?_
    intro r c2 h1 h2
    rw [hboard]
    by_cases hrb : r = backRank c
    · subst hrb
      by_cases h4 : c2 = 4
      · subst h4
        rw [c4]
        simp [kingAt]
      · by_cases h5 : c2 = 5
        · subst h5
          rw [c5]
          simp [kingAt]
        · by_cases h6 : c2 = 6
          · subst h6
            rw [c6]
            simp [kingAt]
          · by_cases h7 : c2 = 7
            · subst h7
              rw [c7]
              simp [kingAt]
            · rw [hrow c2 h4 h5 h6 h7, hking (backRank c) c2 (backRank_lt c) h2]
              omega
    · rw [hoff r c2 hrb, hking r c2 h1 h2]
      omega
  · cases c with
    | White =>
      refine attacked_g1_false st' st ?_ (.Rook .White flr) ?_
        (fun hx => by simp [Piece.color] at hx) ?_ hatt6
      · intro r c2 hrne
        rw [hboard]
        exact hoff r c2 hrne
      · rw [hboard]
        exact c5
      · rw [hboard]
        exact c7
    | Black =>
      refine attacked_g8_false st' st ?_ (.Rook .Black flr) ?_
        (fun hx => by simp [Piece.color] at hx) ?_ hatt6
      · intro r c2 hrne
        rw [hboard]
        exact hoff r c2 hrne
      · rw [hboard]
        exact c5
      · rw [hboard]
        exact c7

/-- The legality predicate accepts the queenside castling candidate. -/
theorem castled_pred_true_Q (st : Chessboard) (c : Color) (fl flr : Bool)
    (hwf : WFB st.board)
    (hking : ∀ r c2, r < 8 → c2 < 8 →
      (kingAt (getCell st.board r c2) c = true ↔ (r = backRank c ∧ c2 = 4)))
    (hk : getCell st.board (backRank c) 4 = some (.King c fl))
    (hr : getCell st.board (backRank c) 0 = some (.Rook c flr))
    (he1 : getCell st.board (backRank c) 1 = none)
    (hatt2 : st.is_square_attacked ⟨backRank c, 2⟩ c.opposite = false) :
    (st.make_move_unchecked ⟨⟨backRank c, 4⟩, ⟨backRank c, 2⟩, none⟩).bind
      (fun tb => (tb.is_in_check c).map (fun b => !b)) = some true := by
  obtain ⟨st', hmmu, hboard, _, _, _, _⟩ :=
    castle_apply_Q_ex st (backRank c) c fl flr hk hr
  obtain ⟨c4, c0, c3, c2c, hoff, hrow⟩ := castledQ_cells st.board (backRank c)
    (.Rook c flr) (.King c fl) hwf (backRank_lt c)
  rw [hmmu, Option.some_bind]
  refine in_check_false_of st' c ⟨backRank c, 2⟩ ?_ ?_
  · refine find_king_unique st' c (backRank c) 2 (backRank_lt c) (by omega) ?_
    intro r c2 h1 h2
    rw [hboard]
    by_cases hrb : r = backRank c
    · subst hrb
      by_cases h0 : c2 = 0
      · subst h0
        rw [c0]
        simp [kingAt]
      · by_cases h2c : c2 = 2
        · subst h2c
          rw [c2c]
          simp [kingAt]
        · by_cases h3 : c2 = 3
          · subst h3
            rw [c3]
            simp [kingAt]
          · by_cases h4 : c2 = 4
            · subst h4
              rw [c4]
              simp [kingAt]
            · rw [hrow c2 h0 h2c h3 h4, hking (backRank c) c2 (backRank_lt c) h2]
              omega
    · rw [hoff r c2 hrb, hking r c2 h1 h2]
      omega
  · cases c with
    | White =>
      refine attacked_c1_false st' st ?_ (.Rook .White flr) ?_
        (fun hx => by simp [Piece.color] at hx) ?_ ?_ hatt2
      · intro r c2 hrne
        rw [hboard]
        exact hoff r c2 hrne
      · rw [hboard]
        exact c3
      · rw [hboard]
        exact (hrow 1 (by omega) (by omega) (by omega) (by omega)).trans he1
      · rw [hboard]
        exact c0
    | Black =>
      refine attacked_c8_false st' st ?_ (.Rook .Black flr) ?_
        (fun hx => by simp [Piece.color] at hx) ?_ ?_ hatt2
      · intro r c2 hrne
        rw [hboard]
        exact hoff r c2 hrne
      · rw [hboard]
        exact c3
      · rw [hboard]
        exact (hrow 1 (by omega) (by omega) (by omega) (by omega)).trans he1
      · rw [hboard]
        exact c0

theorem mem_ite_ite_singleton_iff {α : Type} {p q : Prop} [Decidable p] [Decidable q]
    (x m : α) :
    (m ∈ (if p then (if q then [x] else []) else []) ↔ (m = x ∧ p ∧ q)) := by
  by_cases hp : p
  · rw [if_pos hp]
    by_cases hq : q
    · rw [if_pos hq]
      simp [hp, hq]
    · rw [if_neg hq]
      simp [hq]
  · rw [if_neg hp]
    simp [hp]

/-- Full characterization of the castling candidate list: a move is generated
exactly when it is the kingside (respectively queenside) castling move and the
corresponding right together with the empty-square and not-attacked conditions
of the Rust code hold.  Note no rook-presence condition appears. -/
theorem castling_moves_spec (st : Chessboard) (frm : Position) (c : Color)
    (cl : List Move) (hcm : st.castling_moves frm c = some cl) (m : Move) :
    (m ∈ cl ↔
      ((m = ⟨frm, ⟨backRank c, 6⟩, none⟩ ∧ st.is_in_check c = some false ∧
        kingsideRight st c = true ∧
        getCell st.board (backRank c) 5 = none ∧
        getCell st.board (backRank c) 6 = none ∧
        st.is_square_attacked ⟨backRank c, 4⟩ c.opposite = false ∧
        st.is_square_attacked ⟨backRank c, 5⟩ c.opposite = false ∧
        st.is_square_attacked ⟨backRank c, 6⟩ c.opposite = false) ∨
       (m = ⟨frm, ⟨backRank c, 2⟩, none⟩ ∧ st.is_in_check c = some false ∧
        queensideRight st c = true ∧
        getCell st.board (backRank c) 1 = none ∧
        getCell st.board (backRank c) 2 = none ∧
        getCell st.board (backRank c) 3 = none ∧
        st.is_square_attacked ⟨backRank c, 2⟩ c.opposite = false ∧
        st.is_square_attacked ⟨backRank c, 3⟩ c.opposite = false ∧
        st.is_square_attacked ⟨backRank c, 4⟩ c.opposite = false))) := by
  unfold Chessboard.castling_moves at hcm
  cases hic : st.is_in_check c with
  | none =>
    rw [hic] at hcm
    exact Option.noConfusion hcm
  | some chk =>
    rw [hic, Option.map_some'] at hcm
    injection hcm with hcm
    subst hcm
    cases c with
    | White =>
      cases chk with
      | true =>
        dsimp only [backRank, kingsideRight, queensideRight]
        rw [if_pos rfl]
        constructor
        · intro h
          exact absurd h (List.not_mem_nil m)
        · rintro (⟨_, hf, _⟩ | ⟨_, hf, _⟩) <;>
          · injection hf with hf
            exact Bool.noConfusion hf
      | false =>
        dsimp only [backRank, kingsideRight, queensideRight]
        rw [if_neg (fun hx => Bool.noConfusion hx),
          List.mem_append, mem_ite_ite_singleton_iff, mem_ite_ite_singleton_iff]
        constructor
        · rintro (⟨hm, hks, h5, h6, a4, a5, a6⟩ | ⟨hm, hqs, h1, h2, h3, a2, a3, a4⟩)
          · exact Or.inl ⟨hm, rfl, hks, h5, h6, a4, a5, a6⟩
          · exact Or.inr ⟨hm, rfl, hqs, h1, h2, h3, a2, a3, a4⟩
        · rintro (⟨hm, _, hks, h5, h6, a4, a5, a6⟩ | ⟨hm, _, hqs, h1, h2, h3, a2, a3, a4⟩)
          · exact Or.inl ⟨hm, hks, h5, h6, a4, a5, a6⟩
          · exact Or.inr ⟨hm, hqs, h1, h2, h3, a2, a3, a4⟩
    | Black =>
      cases chk with
      | true =>
        dsimp only [backRank, kingsideRight, queensideRight]
        rw [if_pos rfl]
        constructor
        · intro h
          exact absurd h (List.not_mem_nil m)
        · rintro (⟨_, hf, _⟩ | ⟨_, hf, _⟩) <;>
          · injection hf with hf
            exact Bool.noConfusion hf
      | false =>
        dsimp only [backRank, kingsideRight, queensideRight]
        rw [if_neg (fun hx => Bool.noConfusion hx),
          List.mem_append, mem_ite_ite_singleton_iff, mem_ite_ite_singleton_iff]
        constructor
        · rintro (⟨hm, hks, h5, h6, a4, a5, a6⟩ | ⟨hm, hqs, h1, h2, h3, a2, a3, a4⟩)
          · exact Or.inl ⟨hm, rfl, hks, h5, h6, a4, a5, a6⟩
          · exact Or.inr ⟨hm, rfl, hqs, h1, h2, h3, a2, a3, a4⟩
        · rintro (⟨hm, _, hks, h5, h6, a4, a5, a6⟩ | ⟨hm, _, hqs, h1, h2, h3, a2, a3, a4⟩)
          · exact Or.inl ⟨hm, hks, h5, h6, a4, a5, a6⟩
          · exact Or.inr ⟨hm, hqs, h1, h2, h3, a2, a3, a4⟩

/-- An ordinary king-offset move never changes the column by two. -/
theorem king_offset_col_close (st : Chessboard) (frm : Position) (c : Color)
    (m : Move) (hm : m ∈ st.offset_moves frm c kingOffsets) :
    m.toPos.col ≤ frm.col + 1 ∧ frm.col ≤ m.toPos.col + 1 := by
  obtain ⟨od, hod, hb, rfl⟩ := mem_offset_moves st frm c kingOffsets m hm
  have hod2 : od.2 = -1 ∨ od.2 = 0 ∨ od.2 = 1 := by
    fin_cases hod <;> simp
  dsimp only
  omega

/-- The legality predicate of `get_legal_moves` is defined (never a panic) on
every ordinary king-offset candidate: the simulated board still has the king,
now on the destination square. -/
theorem king_offset_pred_isSome (st : Chessboard) (frm : Position) (c : Color)
    (fl : Bool) (hwf : WFB st.board)
    (hk : getCell st.board frm.row frm.col = some (.King c fl))
    (m : Move) (hm : m ∈ st.offset_moves frm c kingOffsets) :
    ((st.make_move_unchecked m).bind (fun tb =>
      (tb.is_in_check c).map (fun b => !b))).isSome = true := by
  obtain ⟨od, hod, hb, rfl⟩ := mem_offset_moves st frm c kingOffsets m hm
  obtain ⟨hb1, hb2, hb3, hb4⟩ := hb
  have hod2 : od.2 = -1 ∨ od.2 = 0 ∨ od.2 = 1 := by
    fin_cases hod <;> simp
  have hnot2 : ((frm.col : Int) -
      (((((frm.row : Int) + od.1).toNat, ((frm.col : Int) + od.2).toNat) :
        Nat × Nat).2 : Int)).natAbs ≠ 2 := by
    dsimp only
    omega
  obtain ⟨st', hst', hb'⟩ := king_step_apply_ex st frm
    ⟨((frm.row : Int) + od.1).toNat, ((frm.col : Int) + od.2).toNat⟩ c fl hk
    (by dsimp only; omega)
  rw [hst', Option.some_bind]
  refine in_check_isSome_of st' c ?_
  refine find_king_isSome st' c (((frm.row : Int) + od.1).toNat)
    (((frm.col : Int) + od.2).toNat) fl (by omega) (by omega) ?_
  rw [hb']
  exact getCell_setCell_self _ _ _ _
    (wfb_setCell _ _ _ _ (wfb_setCell _ _ _ _ hwf)) (by dsimp only; omega)
    (by dsimp only; omega)

/-- `get_legal_moves` on the king's home square: the candidates are the eight
fixed offsets followed by the castling list, run through the legality filter. -/
theorem glm_king (st : Chessboard) (c : Color) (fl : Bool)
    (hturn : st.current_turn = c)
    (hk : getCell st.board (backRank c) 4 = some (.King c fl))
    (cl : List Move) (hcm : st.castling_moves ⟨backRank c, 4⟩ c = some cl) :
    st.get_legal_moves ⟨backRank c, 4⟩ =
      optFilter (fun mv => (st.make_move_unchecked mv).bind (fun tb =>
        (tb.is_in_check c).map (fun b => !b)))
        (st.offset_moves ⟨backRank c, 4⟩ c kingOffsets ++ cl) := by
  unfold Chessboard.get_legal_moves
  split
  next heq =>
    dsimp only at heq
    rw [hk] at heq
    exact Option.noConfusion heq
  next piece heq =>
    dsimp only at heq
    rw [hk] at heq
    injection heq with heq
    subst heq
    rw [if_neg (fun hne => hne (by rw [hturn]; rfl))]
    dsimp only
    unfold Chessboard.king_moves
    rw [hcm, Option.map_some']
    dsimp only [Piece.color]

/-- Any applied king move clears both castling rights of its color. -/
theorem rights_after_king (st' st : Chessboard) (c : Color) (fl : Bool) (mv : Move)
    (h : st'.castling_rights = rightsAfter st.castling_rights (.King c fl) mv) :
    kingsideRight st' c = false ∧ queensideRight st' c = false := by
  cases c
  · unfold kingsideRight queensideRight
    rw [h]
    unfold rightsAfter
    exact ⟨rfl, rfl⟩
  · unfold kingsideRight queensideRight
    rw [h]
    unfold rightsAfter
    exact ⟨rfl, rfl⟩

/-- A cleared kingside right stays cleared along any successful play. -/
theorem kingsideRight_future (st' : Chessboard) (c : Color)
    (hks : kingsideRight st' c = false) (mvs : List Move) (st2 : Chessboard)
    (h : st'.play mvs = some st2) : kingsideRight st2 c = false := by
  obtain ⟨h1, h2, h3, h4⟩ := play_rights_le st' mvs st2 h
  cases c
  · exact bool_le_contra h1 hks
  · exact bool_le_contra h3 hks

/-- A cleared queenside right stays cleared along any successful play. -/
theorem queensideRight_future (st' : Chessboard) (c : Color)
    (hqs : queensideRight st' c = false) (mvs : List Move) (st2 : Chessboard)
    (h : st'.play mvs = some st2) : queensideRight st2 c = false := by
  obtain ⟨h1, h2, h3, h4⟩ := play_rights_le st' mvs st2 h
  cases c
  · exact bool_le_contra h2 hqs
  · exact bool_le_contra h4 hqs

/-- Once the kingside castling move is in the legal list, `make_move` executes
it: rook to the transit square, king to the castled square, both rights of the
color cleared, the kingside right false forever after. -/
theorem castle_effect_K (st : Chessboard) (c : Color) (fl flr : Bool)
    (hwf : WFB st.board)
    (hk : getCell st.board (backRank c) 4 = some (.King c fl))
    (hr : getCell st.board (backRank c) 7 = some (.Rook c flr))
    (lms : List Move)
    (hglm : st.get_legal_moves ⟨backRank c, 4⟩ = some lms)
    (hmem : (⟨⟨backRank c, 4⟩, ⟨backRank c, 6⟩, none⟩ : Move) ∈ lms) :
    ∃ st', st.make_move ⟨⟨backRank c, 4⟩, ⟨backRank c, 6⟩, none⟩ = some (st', .ok) ∧
      getCell st'.board (backRank c) 4 = none ∧
      getCell st'.board (backRank c) 5 = some (.Rook c flr) ∧
      getCell st'.board (backRank c) 6 = some (.King c fl) ∧
      getCell st'.board (backRank c) 7 = none ∧
      kingsideRight st' c = false ∧ queensideRight st' c = false ∧
      (∀ mvs st2, st'.play mvs = some st2 → kingsideRight st2 c = false) := by
  unfold Chessboard.make_move
  dsimp only
  rw [hglm]
  dsimp only
  have hany : lms.any (fun lm =>
      decide (lm.fromPos = (⟨backRank c, 4⟩ : Position) ∧
        lm.toPos = (⟨backRank c, 6⟩ : Position))) = true :=
    List.any_eq_true.mpr ⟨_, hmem, by simp⟩
  rw [hany]
  rw [if_neg (fun hx => Bool.noConfusion hx)]
  obtain ⟨st', hmmu, hboard, _, hcr, _, _⟩ := castle_apply_K_ex
    { st with move_history := histAfter st ⟨⟨backRank c, 4⟩, ⟨backRank c, 6⟩, none⟩ }
    (backRank c) c fl flr hk hr
  rw [hmmu]
  obtain ⟨c4, c5, c6, c7, hoff, hrow⟩ := castledK_cells st.board (backRank c)
    (.Rook c flr) (.King c fl) hwf (backRank_lt c)
  obtain ⟨hks, hqs⟩ := rights_after_king st' _ c fl _ hcr
  refine ⟨st', rfl, ?_, ?_, ?_, ?_, hks, hqs, ?_⟩
  · rw [hboard]
    exact c4
  · rw [hboard]
    exact c5
  · rw [hboard]
    exact c6
  · rw [hboard]
    exact c7
  · intro mvs st2 hplay
    exact kingsideRight_future st' c hks mvs st2 hplay

/-- Queenside analog of `castle_effect_K`. -/
theorem castle_effect_Q (st : Chessboard) (c : Color) (fl flr : Bool)
    (hwf : WFB st.board)
    (hk : getCell st.board (backRank c) 4 = some (.King c fl))
    (hr : getCell st.board (backRank c) 0 = some (.Rook c flr))
    (lms : List Move)
    (hglm : st.get_legal_moves ⟨backRank c, 4⟩ = some lms)
    (hmem : (⟨⟨backRank c, 4⟩, ⟨backRank c, 2⟩, none⟩ : Move) ∈ lms) :
    ∃ st', st.make_move ⟨⟨backRank c, 4⟩, ⟨backRank c, 2⟩, none⟩ = some (st', .ok) ∧
      getCell st'.board (backRank c) 4 = none ∧
      getCell st'.board (backRank c) 3 = some (.Rook c flr) ∧
      getCell st'.board (backRank c) 2 = some (.King c fl) ∧
      getCell st'.board (backRank c) 0 = none ∧
      kingsideRight st' c = false ∧ queensideRight st' c = false ∧
      (∀ mvs st2, st'.play mvs = some st2 → queensideRight st2 c = false) := by
  unfold Chessboard.make_move
  dsimp only
  rw [hglm]
  dsimp only
  have hany : lms.any (fun lm =>
      decide (lm.fromPos = (⟨backRank c, 4⟩ : Position) ∧
        lm.toPos = (⟨backRank c, 2⟩ : Position))) = true :=
    List.any_eq_true.mpr ⟨_, hmem, by simp⟩
  rw [hany]
  rw [if_neg (fun hx => Bool.noConfusion hx)]
  obtain ⟨st', hmmu, hboard, _, hcr, _, _⟩ := castle_apply_Q_ex
    { st with move_history := histAfter st ⟨⟨backRank c, 4⟩, ⟨backRank c, 2⟩, none⟩ }
    (backRank c) c fl flr hk hr
  rw [hmmu]
  obtain ⟨c4, c0, c3, c2c, hoff, hrow⟩ := castledQ_cells st.board (backRank c)
    (.Rook c flr) (.King c fl) hwf (backRank_lt c)
  obtain ⟨hks, hqs⟩ := rights_after_king st' _ c fl _ hcr
  refine ⟨st', rfl, ?_, ?_, ?_, ?_, hks, hqs, ?_⟩
  · rw [hboard]
    exact c4
  · rw [hboard]
    exact c3
  · rw [hboard]
    exact c2c
  · rw [hboard]
    exact c0
  · intro mvs st2 hplay
    exact queensideRight_future st' c hqs mvs st2 hplay

/-- C4 (amended): on a well-formed board whose side to move has its unique
king on the home square (e1/e8, i.e. column 4 of its back rank), and where
each still-set castling right of that color has a rook of that color on the
corresponding corner, `get_legal_moves` on the king's square succeeds; it
contains the kingside (queenside) castling move exactly when the side is not
in check, the corresponding right is set, the squares strictly between king
and rook are empty, and the king's origin, transit and destination squares
are unattacked; and executing a generated castling move succeeds, relocates
the rook to the transit square, empties the corner and the origin, clears
both castling rights of the color, and the used right remains false along
every subsequently played move sequence.  The rook-on-corner hypotheses are
the amendment over the original claim: the code never checks them and
panics when they fail. -/
theorem c4_castling_spec (st : Chessboard) (c : Color) (fl : Bool)
    (hwf : WFB st.board)
    (hturn : st.current_turn = c)
    (hk : getCell st.board (backRank c) 4 = some (.King c fl))
    (hking : ∀ r, r < 8 → ∀ c2, c2 < 8 →
      (kingAt (getCell st.board r c2) c = true ↔ (r = backRank c ∧ c2 = 4)))
    (hrookK : kingsideRight st c = true →
      ∃ flr, getCell st.board (backRank c) 7 = some (.Rook c flr))
    (hrookQ : queensideRight st c = true →
      ∃ flr, getCell st.board (backRank c) 0 = some (.Rook c flr)) :
    ∃ lms, st.get_legal_moves ⟨backRank c, 4⟩ = some lms ∧
      ((⟨⟨backRank c, 4⟩, ⟨backRank c, 6⟩, none⟩ : Move) ∈ lms ↔
        (st.is_in_check c = some false ∧ kingsideRight st c = true ∧
         getCell st.board (backRank c) 5 = none ∧
         getCell st.board (backRank c) 6 = none ∧
         st.is_square_attacked ⟨backRank c, 4⟩ c.opposite = false ∧
         st.is_square_attacked ⟨backRank c, 5⟩ c.opposite = false ∧
         st.is_square_attacked ⟨backRank c, 6⟩ c.opposite = false)) ∧
      ((⟨⟨backRank c, 4⟩, ⟨backRank c, 2⟩, none⟩ : Move) ∈ lms ↔
        (st.is_in_check c = some false ∧ queensideRight st c = true ∧
         getCell st.board (backRank c) 1 = none ∧
         getCell st.board (backRank c) 2 = none ∧
         getCell st.board (backRank c) 3 = none ∧
         st.is_square_attacked ⟨backRank c, 2⟩ c.opposite = false ∧
         st.is_square_attacked ⟨backRank c, 3⟩ c.opposite = false ∧
         st.is_square_attacked ⟨backRank c, 4⟩ c.opposite = false)) ∧
      ((⟨⟨backRank c, 4⟩, ⟨backRank c, 6⟩, none⟩ : Move) ∈ lms →
        ∃ st' flr, st.make_move ⟨⟨backRank c, 4⟩, ⟨backRank c, 6⟩, none⟩ =
            some (st', .ok) ∧
          getCell st'.board (backRank c) 4 = none ∧
          getCell st'.board (backRank c) 5 = some (.Rook c flr) ∧
          getCell st'.board (backRank c) 6 = some (.King c fl) ∧
          getCell st'.board (backRank c) 7 = none ∧
          kingsideRight st' c = false ∧ queensideRight st' c = false ∧
          (∀ mvs st2, st'.play mvs = some st2 → kingsideRight st2 c = false)) ∧
      ((⟨⟨backRank c, 4⟩, ⟨backRank c, 2⟩, none⟩ : Move) ∈ lms →
        ∃ st' flr, st.make_move ⟨⟨backRank c, 4⟩, ⟨backRank c, 2⟩, none⟩ =
            some (st', .ok) ∧
          getCell st'.board (backRank c) 4 = none ∧
          getCell st'.board (backRank c) 3 = some (.Rook c flr) ∧
          getCell st'.board (backRank c) 2 = some (.King c fl) ∧
          getCell st'.board (backRank c) 0 = none ∧
          kingsideRight st' c = false ∧ queensideRight st' c = false ∧
          (∀ mvs st2, st'.play mvs = some st2 → queensideRight st2 c = false)) := by
  have hking' : ∀ r c2, r < 8 → c2 < 8 →
      (kingAt (getCell st.board r c2) c = true ↔ (r = backRank c ∧ c2 = 4)) :=
    fun r c2 h1 h2 => hking r h1 c2 h2
  have hfk : st.find_king c = some ⟨backRank c, 4⟩ :=
    find_king_unique st c (backRank c) 4 (backRank_lt c) (by omega) hking'
  have hic : st.is_in_check c =
      some (st.is_square_attacked ⟨backRank c, 4⟩ c.opposite) := by
    unfold Chessboard.is_in_check
    rw [hfk, Option.map_some']
  obtain ⟨cl, hcm⟩ : ∃ cl, st.castling_moves ⟨backRank c, 4⟩ c = some cl := by
    unfold Chessboard.castling_moves
    rw [hic, Option.map_some']
    exact ⟨_, rfl⟩
  have hspec := castling_moves_spec st ⟨backRank c, 4⟩ c cl hcm
  have hall : ∀ m ∈ st.offset_moves ⟨backRank c, 4⟩ c kingOffsets ++ cl,
      ((fun mv => (st.make_move_unchecked mv).bind (fun tb =>
        (tb.is_in_check c).map (fun b => !b))) m).isSome = true := by
    intro m hm
    rcases List.mem_append.mp hm with h | h
    · exact king_offset_pred_isSome st ⟨backRank c, 4⟩ c fl hwf hk m h
    · rcases (hspec m).mp h with
        ⟨rfl, hic0, hksr, h5, h6, a4, a5, a6⟩ |
        ⟨rfl, hic0, hqsr, h1c, h2c, h3c, a2, a3, a4⟩
      · obtain ⟨flr, hrk⟩ := hrookK hksr
        exact Option.isSome_iff_exists.mpr
          ⟨true, castled_pred_true_K st c fl flr hwf hking' hk hrk a6⟩
      · obtain ⟨flr, hrq⟩ := hrookQ hqsr
        exact Option.isSome_iff_exists.mpr
          ⟨true, castled_pred_true_Q st c fl flr hwf hking' hk hrq h1c a2⟩
  have hfilter := optFilter_eq_some_of_forall _ _ hall
  have hglm := (glm_king st c fl hturn hk cl hcm).trans hfilter
  obtain ⟨lms, hglm2⟩ : ∃ l, st.get_legal_moves ⟨backRank c, 4⟩ = some l :=
    ⟨_, hglm⟩
  have hlms : lms = (st.offset_moves ⟨backRank c, 4⟩ c kingOffsets ++ cl).filter
      (fun a => ((fun mv => (st.make_move_unchecked mv).bind (fun tb =>
        (tb.is_in_check c).map (fun b => !b))) a).getD false) := by
    rw [hglm] at hglm2
    exact (Option.some.inj hglm2).symm
  have hiffK : (⟨⟨backRank c, 4⟩, ⟨backRank c, 6⟩, none⟩ : Move) ∈ lms ↔
      (st.is_in_check c = some false ∧ kingsideRight st c = true ∧
       getCell st.board (backRank c) 5 = none ∧
       getCell st.board (backRank c) 6 = none ∧
       st.is_square_attacked ⟨backRank c, 4⟩ c.opposite = false ∧
       st.is_square_attacked ⟨backRank c, 5⟩ c.opposite = false ∧
       st.is_square_attacked ⟨backRank c, 6⟩ c.opposite = false) := by
    rw [hlms, List.mem_filter]
    constructor
    · rintro ⟨hmem0, hpred⟩
      rcases List.mem_append.mp hmem0 with h | h
      · have hcc := king_offset_col_close st ⟨backRank c, 4⟩ c _ h
        dsimp only at hcc
        exact absurd hcc (by omega)
      · rcases (hspec _).mp h with
          ⟨_, hic0, hksr, h5, h6, a4, a5, a6⟩ | ⟨heq, _⟩
        · exact ⟨hic0, hksr, h5, h6, a4, a5, a6⟩
        · exact absurd heq (by simp)
    · rintro ⟨hic0, hksr, h5, h6, a4, a5, a6⟩
      refine ⟨List.mem_append.mpr (Or.inr ((hspec _).mpr
        (Or.inl ⟨rfl, hic0, hksr, h5, h6, a4, a5, a6⟩))), ?_⟩
      obtain ⟨flr, hrk⟩ := hrookK hksr
      have hp := castled_pred_true_K st c fl flr hwf hking' hk hrk a6
      simp only [hp, Option.getD_some]
  have hiffQ : (⟨⟨backRank c, 4⟩, ⟨backRank c, 2⟩, none⟩ : Move) ∈ lms ↔
      (st.is_in_check c = some false ∧ queensideRight st c = true ∧
       getCell st.board (backRank c) 1 = none ∧
       getCell st.board (backRank c) 2 = none ∧
       getCell st.board (backRank c) 3 = none ∧
       st.is_square_attacked ⟨backRank c, 2⟩ c.opposite = false ∧
       st.is_square_attacked ⟨backRank c, 3⟩ c.opposite = false ∧
       st.is_square_attacked ⟨backRank c, 4⟩ c.opposite = false) := by
    rw [hlms, List.mem_filter]
    constructor
    · rintro ⟨hmem0, hpred⟩
      rcases List.mem_append.mp hmem0 with h | h
      · have hcc := king_offset_col_close st ⟨backRank c, 4⟩ c _ h
        dsimp only at hcc
        exact absurd hcc (by omega)
      · rcases (hspec _).mp h with
          ⟨heq, _⟩ | ⟨_, hic0, hqsr, h1c, h2c, h3c, a2, a3, a4⟩
        · exact absurd heq (by simp)
        · exact ⟨hic0, hqsr, h1c, h2c, h3c, a2, a3, a4⟩
    · rintro ⟨hic0, hqsr, h1c, h2c, h3c, a2, a3, a4⟩
      refine ⟨List.mem_append.mpr (Or.inr ((hspec _).mpr
        (Or.inr ⟨rfl, hic0, hqsr, h1c, h2c, h3c, a2, a3, a4⟩))), ?_⟩
      obtain ⟨flr, hrq⟩ := hrookQ hqsr
      have hp := castled_pred_true_Q st c fl flr hwf hking' hk hrq h1c a2
      simp only [hp, Option.getD_some]
  refine ⟨lms, hglm2, hiffK, hiffQ, ?_, ?_⟩
  · intro hmem
    obtain ⟨hic0, hksr, _⟩ := hiffK.mp hmem
    obtain ⟨flr, hrk⟩ := hrookK hksr
    obtain ⟨st', heff⟩ := castle_effect_K st c fl flr hwf hk hrk lms hglm2 hmem
    exact ⟨st', flr, heff⟩
  · intro hmem
    obtain ⟨hic0, hqsr, _⟩ := hiffQ.mp hmem
    obtain ⟨flr, hrq⟩ := hrookQ hqsr
    obtain ⟨st', heff⟩ := castle_effect_Q st c fl flr hwf hk hrq lms hglm2 hmem
    exact ⟨st', flr, heff⟩

/-- A position where both White castling options are available: White king on
e1, White rooks on a1 and h1, Black king on e8, all rights set, White to
move. -/
def castleReadyState : Chessboard where
  board := [emptyRow.set 4 (some (.King .Black false)), emptyRow, emptyRow,
            emptyRow, emptyRow, emptyRow, emptyRow,
            ((emptyRow.set 4 (some (.King .White false))).set 0
              (some (.Rook .White false))).set 7 (some (.Rook .White false))]
  current_turn := .White
  castling_rights := CastlingRights.new
  en_passant_target := none
  move_history := []

theorem c4_castling_spec_witness :
    WFB castleReadyState.board ∧
    castleReadyState.current_turn = .White ∧
    getCell castleReadyState.board 7 4 = some (.King .White false) ∧
    (∀ r, r < 8 → ∀ c2, c2 < 8 →
      (kingAt (getCell castleReadyState.board r c2) .White = true ↔
        (r = 7 ∧ c2 = 4))) ∧
    (kingsideRight castleReadyState .White = true →
      ∃ flr, getCell castleReadyState.board 7 7 = some (.Rook .White flr)) ∧
    (queensideRight castleReadyState .White = true →
      ∃ flr, getCell castleReadyState.board 7 0 = some (.Rook .White flr)) ∧
    (∃ lms, castleReadyState.get_legal_moves ⟨7, 4⟩ = some lms ∧
      ((⟨⟨7, 4⟩, ⟨7, 6⟩, none⟩ : Move) ∈ lms ↔
        (castleReadyState.is_in_check .White = some false ∧
         kingsideRight castleReadyState .White = true ∧
         getCell castleReadyState.board 7 5 = none ∧
         getCell castleReadyState.board 7 6 = none ∧
         castleReadyState.is_square_attacked ⟨7, 4⟩ .Black = false ∧
         castleReadyState.is_square_attacked ⟨7, 5⟩ .Black = false ∧
         castleReadyState.is_square_attacked ⟨7, 6⟩ .Black = false)) ∧
      ((⟨⟨7, 4⟩, ⟨7, 2⟩, none⟩ : Move) ∈ lms ↔
        (castleReadyState.is_in_check .White = some false ∧
         queensideRight castleReadyState .White = true ∧
         getCell castleReadyState.board 7 1 = none ∧
         getCell castleReadyState.board 7 2 = none ∧
         getCell castleReadyState.board 7 3 = none ∧
         castleReadyState.is_square_attacked ⟨7, 2⟩ .Black = false ∧
         castleReadyState.is_square_attacked ⟨7, 3⟩ .Black = false ∧
         castleReadyState.is_square_attacked ⟨7, 4⟩ .Black = false)) ∧
      ((⟨⟨7, 4⟩, ⟨7, 6⟩, none⟩ : Move) ∈ lms →
        ∃ st' flr, castleReadyState.make_move ⟨⟨7, 4⟩, ⟨7, 6⟩, none⟩ =
            some (st', .ok) ∧
          getCell st'.board 7 4 = none ∧
          getCell st'.board 7 5 = some (.Rook .White flr) ∧
          getCell st'.board 7 6 = some (.King .White false) ∧
          getCell st'.board 7 7 = none ∧
          kingsideRight st' .White = false ∧ queensideRight st' .White = false ∧
          (∀ mvs st2, st'.play mvs = some st2 →
            kingsideRight st2 .White = false)) ∧
      ((⟨⟨7, 4⟩, ⟨7, 2⟩, none⟩ : Move) ∈ lms →
        ∃ st' flr, castleReadyState.make_move ⟨⟨7, 4⟩, ⟨7, 2⟩, none⟩ =
            some (st', .ok) ∧
          getCell st'.board 7 4 = none ∧
          getCell st'.board 7 3 = some (.Rook .White flr) ∧
          getCell st'.board 7 2 = some (.King .White false) ∧
          getCell st'.board 7 0 = none ∧
          kingsideRight st' .White = false ∧ queensideRight st' .White = false ∧
          (∀ mvs st2, st'.play mvs = some st2 →
            queensideRight st2 .White = false))) :=
  ⟨by constructor <;> decide, rfl, by decide, by decide, by decide, by decide,
   c4_castling_spec castleReadyState .White false (by constructor <;> decide) rfl
     (by decide) (by decide) (by decide) (by decide)⟩

/-- Counterexample to the original C4 claim: the state reached by the ten
moves of `demoMoves` (White's h1 rook has been captured) satisfies every
condition the claim lists for kingside castling — White to move, not in
check, kingside right still set, f1 and g1 empty, e1/f1/g1 unattacked — yet
`get_legal_moves` on the king's square e1 does not return a list containing
the castling move: it panics (`none`), because the generator never checks
that a rook is on h1 and the simulation unwraps the empty corner. -/
theorem c4_counterexample_castles_into_missing_rook :
    playGame demoMoves = some demoState ∧
    demoState.current_turn = .White ∧
    demoState.castling_rights.white_kingside = true ∧
    getCell demoState.board 7 4 = some (.King .White false) ∧
    getCell demoState.board 7 5 = none ∧
    getCell demoState.board 7 6 = none ∧
    getCell demoState.board 7 7 = none ∧
    demoState.is_in_check .White = some false ∧
    demoState.is_square_attacked ⟨7, 4⟩ .Black = false ∧
    demoState.is_square_attacked ⟨7, 5⟩ .Black = false ∧
    demoState.is_square_attacked ⟨7, 6⟩ .Black = false ∧
    demoState.get_legal_moves ⟨7, 4⟩ = none := by
  decide

end Chess

